import Mathlib

set_option linter.unusedVariables false

/-!
A shallow embedding of V8's mid-tier register allocator
(src/compiler/backend/mid-tier-register-allocator.cc), covering the data
model and operations needed to settle the claims about spill ranges,
register spilling, spill-slot packing, dominator propagation and
reference-map population.

Modelling conventions:
* Instruction indices are `Int` (C++ `int`; `last_use_instr_index_` is
  initialised to `-1`).
* Virtual registers, register indices, block rpo numbers and operand ids
  are `Nat`; the C++ sentinel `kInvalidVirtualRegister` is modelled by
  `Option`.
* Operands live in instructions and parallel moves and are rewritten in
  place (`InstructionOperand::ReplaceWith`).  The model keeps an operand
  store `operands : Nat → InstructionOperand` indexed by operand id;
  rewriting in place is `Function.update`.  The intrusive `next` pointers
  of chained `PendingOperand`s are modelled by their owner holding the
  list of chained operand ids (head of chain first), following the
  arena-index representation the code's own design notes suggest.
* `BitVector`s and the per-allocator register bit masks are `Finset Nat`
  (a bit is set iff the index is a member).
* `MachineRepresentation` never influences the allocator's control flow
  in the modelled routines (`RegisterIndex::ToBit` ignores it); it is
  dropped from operands, and the byte width it determines is passed
  explicitly where it matters (spill-slot packing).
-/

namespace MidTier

/-- `kMaxInt`: used as the `start` of a default-constructed (empty) `Range`
and as the initial `earliest_definition` in `ChooseRegisterToSpill`. -/
def kMaxInt : Int := 2147483647

/-- A Range from [start, end] of instructions, inclusive of start and end. -/
structure Range where
  start : Int
  end_ : Int
deriving DecidableEq

/-- `Range() : start_(kMaxInt), end_(0)`. -/
def Range.empty : Range := ⟨kMaxInt, 0⟩

def Range.AddInstr (r : Range) (index : Int) : Range :=
  ⟨min r.start index, max r.end_ index⟩

def Range.AddRange (r other : Range) : Range :=
  ⟨min r.start other.start, max r.end_ other.end_⟩

/-- `index >= start_ && index <= end_`. -/
def Range.Contains (r : Range) (index : Int) : Bool :=
  decide (r.start ≤ index) && decide (index ≤ r.end_)

/-- `Instruction::GapPosition`. -/
inductive GapPosition where
  | START
  | END
deriving DecidableEq

/-- `AllocatedOperand`'s location kind. -/
inductive LocationKind where
  | REGISTER
  | STACK_SLOT
deriving DecidableEq

/-- The operand states an operand slot can be in during this allocator's
work.  `UnallocatedOperand` policies are irrelevant to the modelled
routines and are not carried. -/
inductive InstructionOperand where
  | Unallocated (virtualRegister : Nat)
  | Constant (virtualRegister : Nat)
  | Allocated (kind : LocationKind) (index : Nat)
  | Pending
deriving DecidableEq

def InstructionOperand.IsAllocated : InstructionOperand → Bool
  | .Allocated _ _ => true
  | _ => false

def InstructionOperand.IsConstant : InstructionOperand → Bool
  | .Constant _ => true
  | _ => false

def InstructionOperand.IsPending : InstructionOperand → Bool
  | .Pending => true
  | _ => false

/-- Read-only per-block data of the `InstructionSequence`. -/
structure InstructionBlock where
  firstInstructionIndex : Int
  lastInstructionIndex : Int
  successors : List Nat
  predecessors : List Nat
  dominator : Option Nat
deriving DecidableEq

def InstructionBlock.PredecessorCount (b : InstructionBlock) : Nat :=
  b.predecessors.length

/-- The read-only environment: the instruction sequence's block structure
(`data->GetBlock`), the per-block dominated-blocks sets computed by
`InitializeBlockState` (read through `GetBlocksDominatedBy` after that
pass has completed), the recorded reference-map instructions and
`InstructionSequence::IsReference`. -/
structure Env where
  blocks : Nat → InstructionBlock
  blockOf : Int → Nat
  dominatedBlocks : Nat → Finset Nat
  referenceMapInstructions : List Int
  isReference : Nat → Bool

/-- `MidTierRegisterAllocationData::GetBlocksDominatedBy(instr_index)`. -/
def Env.GetBlocksDominatedBy (env : Env) (instrIndex : Int) : Finset Nat :=
  env.dominatedBlocks (env.blockOf instrIndex)

/-- `VirtualRegisterData::SpillRange`.  `live_blocks_` is a pointer to the
block state's bitvector; those sets are fully computed before any spill
range is created (during `DefineOutputs`), so it is captured by value. -/
structure SpillRange where
  liveRange : Range
  liveBlocks : Finset Nat
deriving DecidableEq

/-- `SpillRange(definition_instr_index, data)` — the constructor used for a
non-phi output. -/
def SpillRange.forDefinition (env : Env) (definitionInstrIndex : Int) : SpillRange :=
  { liveRange := ⟨definitionInstrIndex, definitionInstrIndex⟩,
    liveBlocks := env.GetBlocksDominatedBy definitionInstrIndex }

/-- `SpillRange(phi_block, data)`: starts at the phi block's first
instruction and adds each predecessor's last instruction. -/
def SpillRange.forPhi (env : Env) (phiBlock : InstructionBlock) : SpillRange :=
  { liveRange := phiBlock.predecessors.foldl
      (fun r pred => r.AddInstr (env.blocks pred).lastInstructionIndex)
      ⟨phiBlock.firstInstructionIndex, phiBlock.firstInstructionIndex⟩,
    liveBlocks := env.GetBlocksDominatedBy phiBlock.firstInstructionIndex }

def SpillRange.IsLiveAt (sr : SpillRange) (instrIndex : Int) (blockRpo : Nat) : Bool :=
  sr.liveRange.Contains instrIndex && decide (blockRpo ∈ sr.liveBlocks)

def SpillRange.ExtendRangeTo (sr : SpillRange) (instrIndex : Int) : SpillRange :=
  { sr with liveRange := sr.liveRange.AddInstr instrIndex }

/-- The `spill_operand_` pointer of a `VirtualRegisterData`: null, a
pointer to a concrete (constant or allocated) operand, or the head of an
intrusive chain of `PendingOperand`s; the chain is represented by the list
of the chained operands' ids, head first. -/
inductive SpillOperandPtr where
  | null
  | operand (id : Nat)
  | chain (ids : List Nat)
deriving DecidableEq

def SpillOperandPtr.head : SpillOperandPtr → Option Nat
  | .null => none
  | .operand id => some id
  | .chain ids => ids.head?

structure VirtualRegisterData where
  spillOperand : SpillOperandPtr
  spillRange : Option SpillRange
  outputInstrIndex : Int
  vreg : Nat
  isPhi : Bool
  isConstant : Bool
deriving DecidableEq

def VirtualRegisterData.Initialize (virtualRegister : Nat)
    (spillOperand : SpillOperandPtr) (instrIndex : Int)
    (isPhi isConstant : Bool) : VirtualRegisterData :=
  { vreg := virtualRegister, spillOperand := spillOperand,
    spillRange := none, outputInstrIndex := instrIndex,
    isPhi := isPhi, isConstant := isConstant }

/-- `DefineAsConstantOperand(operand, instr_index)`; `operandId` is the id
of the `ConstantOperand` (whose `virtual_register()` is
`virtualRegister`) the spill operand points at. -/
def VirtualRegisterData.DefineAsConstantOperand (operandId : Nat)
    (virtualRegister : Nat) (instrIndex : Int) : VirtualRegisterData :=
  VirtualRegisterData.Initialize virtualRegister (.operand operandId) instrIndex false true

def VirtualRegisterData.DefineAsFixedSpillOperand (operandId : Nat)
    (virtualRegister : Nat) (instrIndex : Int) : VirtualRegisterData :=
  VirtualRegisterData.Initialize virtualRegister (.operand operandId) instrIndex false false

def VirtualRegisterData.DefineAsUnallocatedOperand (virtualRegister : Nat)
    (instrIndex : Int) : VirtualRegisterData :=
  VirtualRegisterData.Initialize virtualRegister .null instrIndex false false

def VirtualRegisterData.DefineAsPhi (virtualRegister : Nat)
    (instrIndex : Int) : VirtualRegisterData :=
  VirtualRegisterData.Initialize virtualRegister .null instrIndex true false

def VirtualRegisterData.HasSpillOperand (vd : VirtualRegisterData) : Bool :=
  match vd.spillOperand with
  | .null => false
  | _ => true

def VirtualRegisterData.HasSpillRange (vd : VirtualRegisterData) : Bool :=
  vd.spillRange.isSome

/-- `HasConstantSpillOperand` (the code asserts it coincides with
`is_constant()`). -/
def VirtualRegisterData.HasConstantSpillOperand (vd : VirtualRegisterData) : Bool :=
  vd.isConstant

def VirtualRegisterData.NeedsSpillAtOutput (vd : VirtualRegisterData) : Bool :=
  vd.HasSpillOperand && !vd.isConstant

/-- A parallel gap move; `source`/`destination` are operand ids into the
operand store (so that pending gap-move operands can be rewritten later). -/
structure GapMove where
  instrIndex : Int
  position : GapPosition
  source : Nat
  destination : Nat
deriving DecidableEq

/-- The mutable part of `MidTierRegisterAllocationData`: the per-vreg
records, the operand store, the inserted gap moves and the set of spilled
virtual registers. -/
structure MidTierRegisterAllocationData where
  vregs : Nat → VirtualRegisterData
  operands : Nat → InstructionOperand
  nextOperandId : Nat
  gapMoves : List GapMove
  spilledVirtualRegisters : List Nat

/-- `AddGapMove`: appends a move at the given instruction/position; fresh
operand ids are allocated for the move's source and destination. -/
def MidTierRegisterAllocationData.AddGapMove (d : MidTierRegisterAllocationData)
    (instrIndex : Int) (position : GapPosition)
    (from_ to_ : InstructionOperand) :
    MidTierRegisterAllocationData × Nat × Nat :=
  let srcId := d.nextOperandId
  let dstId := d.nextOperandId + 1
  ({ d with
      operands := Function.update (Function.update d.operands srcId from_) dstId to_,
      nextOperandId := d.nextOperandId + 2,
      gapMoves := d.gapMoves ++ [⟨instrIndex, position, srcId, dstId⟩] },
   srcId, dstId)

/-- `AddPendingOperandGapMove`. -/
def MidTierRegisterAllocationData.AddPendingOperandGapMove
    (d : MidTierRegisterAllocationData) (instrIndex : Int)
    (position : GapPosition) : MidTierRegisterAllocationData × Nat × Nat :=
  d.AddGapMove instrIndex position .Pending .Pending

/-- The value `*spill_operand()` (dereference of the spill operand
pointer); only meaningful when `HasSpillOperand`. -/
def MidTierRegisterAllocationData.spillOperandValue
    (d : MidTierRegisterAllocationData) (v : Nat) : InstructionOperand :=
  match (d.vregs v).spillOperand.head with
  | some id => d.operands id
  | none => .Pending

def MidTierRegisterAllocationData.HasAllocatedSpillOperand
    (d : MidTierRegisterAllocationData) (v : Nat) : Bool :=
  (d.vregs v).HasSpillOperand && (d.spillOperandValue v).IsAllocated

def MidTierRegisterAllocationData.HasPendingSpillOperand
    (d : MidTierRegisterAllocationData) (v : Nat) : Bool :=
  (d.vregs v).HasSpillOperand && (d.spillOperandValue v).IsPending

def MidTierRegisterAllocationData.HasConstantSpillOperand
    (d : MidTierRegisterAllocationData) (v : Nat) : Bool :=
  (d.vregs v).isConstant

/-- `VirtualRegisterData::AddPendingSpillOperand`: prepend the pending
operand onto the chain rooted at `spill_operand_`. -/
def AddPendingSpillOperand (d : MidTierRegisterAllocationData) (v : Nat)
    (pendingId : Nat) : MidTierRegisterAllocationData :=
  let vd := d.vregs v
  let so : SpillOperandPtr :=
    match vd.spillOperand with
    | .null => .chain [pendingId]
    | .chain ids => .chain (pendingId :: ids)
    | .operand id => .chain (pendingId :: [id])
  { d with vregs := Function.update d.vregs v { vd with spillOperand := so } }

/-- `VirtualRegisterData::EnsureSpillRange` (the code asserts the vreg is
not constant). -/
def EnsureSpillRange (env : Env) (v : Nat)
    (d : MidTierRegisterAllocationData) : MidTierRegisterAllocationData :=
  let vd := d.vregs v
  if vd.HasSpillRange then d
  else
    let sr :=
      if vd.isPhi then
        SpillRange.forPhi env (env.blocks (env.blockOf vd.outputInstrIndex))
      else
        -- "The spill slot will be defined after the instruction that
        -- outputs it."
        SpillRange.forDefinition env (vd.outputInstrIndex + 1)
    { d with
        vregs := Function.update d.vregs v { vd with spillRange := some sr },
        spilledVirtualRegisters := d.spilledVirtualRegisters ++ [v] }

/-- `VirtualRegisterData::AddSpillUse`. -/
def AddSpillUse (env : Env) (v : Nat) (instrIndex : Int)
    (d : MidTierRegisterAllocationData) : MidTierRegisterAllocationData :=
  if (d.vregs v).isConstant then d
  else
    let d := EnsureSpillRange env v d
    let vd := d.vregs v
    let vd2 := { vd with spillRange := vd.spillRange.map (·.ExtendRangeTo instrIndex) }
    { d with vregs := Function.update d.vregs v vd2 }

/-- `VirtualRegisterData::SpillOperand(operand, instr_index, data)`:
rewrites the operand with id `operandId` in place. -/
def SpillOperand (env : Env) (v : Nat) (operandId : Nat) (instrIndex : Int)
    (d : MidTierRegisterAllocationData) : MidTierRegisterAllocationData :=
  let d := AddSpillUse env v instrIndex d
  if d.HasAllocatedSpillOperand v || d.HasConstantSpillOperand v then
    { d with operands := Function.update d.operands operandId (d.spillOperandValue v) }
  else
    let d := { d with operands := Function.update d.operands operandId .Pending }
    AddPendingSpillOperand d v operandId

/-- `VirtualRegisterData::EmitGapMoveToInputFromSpillSlot`. -/
def EmitGapMoveToInputFromSpillSlot (env : Env) (v : Nat)
    (toOperand : InstructionOperand) (instrIndex : Int)
    (d : MidTierRegisterAllocationData) : MidTierRegisterAllocationData :=
  let d := AddSpillUse env v instrIndex d
  if d.HasAllocatedSpillOperand v || d.HasConstantSpillOperand v then
    (d.AddGapMove instrIndex .END (d.spillOperandValue v) toOperand).1
  else
    match d.AddPendingOperandGapMove instrIndex .END with
    | (d, srcId, dstId) =>
      let d := AddPendingSpillOperand d v srcId
      { d with operands := Function.update d.operands dstId toOperand }

/-- `VirtualRegisterData::EmitGapMoveToSpillSlot`. -/
def EmitGapMoveToSpillSlot (env : Env) (v : Nat)
    (fromOperand : InstructionOperand) (instrIndex : Int)
    (d : MidTierRegisterAllocationData) : MidTierRegisterAllocationData :=
  let d := AddSpillUse env v instrIndex d
  if d.HasAllocatedSpillOperand v || d.HasConstantSpillOperand v then
    (d.AddGapMove instrIndex .START fromOperand (d.spillOperandValue v)).1
  else
    match d.AddPendingOperandGapMove instrIndex .START with
    | (d, srcId, dstId) =>
      let d := { d with operands := Function.update d.operands srcId fromOperand }
      AddPendingSpillOperand d v dstId

/-- `VirtualRegisterData::EmitGapMoveFromOutputToSpillSlot(from_operand,
current_block, instr_index, data)` (the code asserts
`GetBlock(instr_index) == current_block` and, in the end-of-block case,
that every successor has a single predecessor). -/
def EmitGapMoveFromOutputToSpillSlot (env : Env) (v : Nat)
    (fromOperand : InstructionOperand) (currentBlock : Nat) (instrIndex : Int)
    (d : MidTierRegisterAllocationData) : MidTierRegisterAllocationData :=
  if instrIndex = (env.blocks currentBlock).lastInstructionIndex then
    (env.blocks currentBlock).successors.foldl
      (fun d succ =>
        EmitGapMoveToSpillSlot env v fromOperand
          (env.blocks succ).firstInstructionIndex d) d
  else
    EmitGapMoveToSpillSlot env v fromOperand (instrIndex + 1) d

/-- `VirtualRegisterData::AllocatePendingSpillOperand`: overwrite every
chained pending operand with `allocated`; `spill_operand_` keeps pointing
at the (now allocated) head. -/
def AllocatePendingSpillOperand (d : MidTierRegisterAllocationData) (v : Nat)
    (allocated : InstructionOperand) : MidTierRegisterAllocationData :=
  let vd := d.vregs v
  match vd.spillOperand with
  | .chain ids =>
    { d with
        operands := ids.foldl (fun ops id => Function.update ops id allocated) d.operands,
        vregs := Function.update d.vregs v
          { vd with spillOperand :=
              (match ids with
              | id :: _ => .operand id
              | [] => .null) } }
  | _ => d

/-- The operations through which allocation can spill a given virtual
register (all the callers of `AddSpillUse`), used to state invariants
that hold under any sequence of them. -/
inductive SpillUseOp where
  | spillOperand (operandId : Nat) (instrIndex : Int)
  | gapMoveToInput (toOperand : InstructionOperand) (instrIndex : Int)
  | gapMoveToSpillSlot (fromOperand : InstructionOperand) (instrIndex : Int)
  | gapMoveFromOutput (fromOperand : InstructionOperand) (blockRpo : Nat) (instrIndex : Int)
  | addSpillUse (instrIndex : Int)

def applySpillUseOp (env : Env) (v : Nat)
    (d : MidTierRegisterAllocationData) :
    SpillUseOp → MidTierRegisterAllocationData
  | .spillOperand operandId instrIndex => SpillOperand env v operandId instrIndex d
  | .gapMoveToInput toOperand instrIndex =>
      EmitGapMoveToInputFromSpillSlot env v toOperand instrIndex d
  | .gapMoveToSpillSlot fromOperand instrIndex =>
      EmitGapMoveToSpillSlot env v fromOperand instrIndex d
  | .gapMoveFromOutput fromOperand blockRpo instrIndex =>
      EmitGapMoveFromOutputToSpillSlot env v fromOperand blockRpo instrIndex d
  | .addSpillUse instrIndex => AddSpillUse env v instrIndex d

def applySpillUseOps (env : Env) (v : Nat) (ops : List SpillUseOp)
    (d : MidTierRegisterAllocationData) : MidTierRegisterAllocationData :=
  ops.foldl (applySpillUseOp env v) d

/-- `RegisterState::Register`: the in-progress allocation of one physical
register.  `pending_uses_` is the chain of pending operand ids. -/
structure Register where
  needsGapMoveOnSpill : Bool
  lastUseInstrIndex : Int
  virtualRegister : Option Nat
  pendingUses : List Nat
deriving DecidableEq

def Register.Reset : Register :=
  { needsGapMoveOnSpill := false, lastUseInstrIndex := -1,
    virtualRegister := none, pendingUses := [] }

def Register.is_allocated (r : Register) : Bool := r.virtualRegister.isSome

/-- `Register::Use` (the code asserts the register was unallocated). -/
def Register.Use (r : Register) (virtualRegister : Nat) (instrIndex : Int) : Register :=
  { r with needsGapMoveOnSpill := true,
           virtualRegister := some virtualRegister,
           lastUseInstrIndex := instrIndex }

/-- `Register::PendingUse`: rewrites `operandId` in place with a pending
placeholder linked onto the chain and roots the chain there. -/
def Register.PendingUse (r : Register) (operandId : Nat)
    (virtualRegister : Nat) (instrIndex : Int)
    (d : MidTierRegisterAllocationData) :
    Register × MidTierRegisterAllocationData :=
  let r :=
    if !r.is_allocated then
      { r with virtualRegister := some virtualRegister,
               lastUseInstrIndex := instrIndex }
    else r
  let d := { d with operands := Function.update d.operands operandId .Pending }
  ({ r with pendingUses := operandId :: r.pendingUses }, d)

/-- `Register::Commit`: allocate all pending uses to `allocated_op`. -/
def Register.Commit (r : Register) (allocatedOp : InstructionOperand)
    (d : MidTierRegisterAllocationData) :
    Register × MidTierRegisterAllocationData :=
  let d := { d with operands :=
      r.pendingUses.foldl (fun ops id => Function.update ops id allocatedOp) d.operands }
  ({ r with pendingUses := [] }, d)

/-- `Register::SpillPendingUses`: spill every pending operand of this
register against the held virtual register at `last_use_instr_index`. -/
def Register.SpillPendingUses (env : Env) (r : Register)
    (d : MidTierRegisterAllocationData) :
    Register × MidTierRegisterAllocationData :=
  match r.virtualRegister with
  | none => ({ r with pendingUses := [] }, d)
  | some v =>
    let d := r.pendingUses.foldl
      (fun d id => SpillOperand env v id r.lastUseInstrIndex d) d
    ({ r with pendingUses := [] }, d)

/-- `Register::Spill(allocated_op, data)`. -/
def Register.Spill (env : Env) (r : Register)
    (allocatedOp : InstructionOperand) (d : MidTierRegisterAllocationData) :
    Register × MidTierRegisterAllocationData :=
  let d :=
    if r.needsGapMoveOnSpill then
      match r.virtualRegister with
      | some v => EmitGapMoveToInputFromSpillSlot env v allocatedOp r.lastUseInstrIndex d
      | none => d
    else d
  match Register.SpillPendingUses env r d with
  | (r, d) => ({ r with virtualRegister := none }, d)

/-- `RegisterState`: per-block, per-kind state of the physical registers;
`register_data_` entries are lazily created. -/
structure RegisterState where
  registerData : List (Option Register)
deriving DecidableEq

def RegisterState.New (numAllocatableRegisters : Nat) : RegisterState :=
  ⟨List.replicate numAllocatableRegisters none⟩

def RegisterState.HasRegisterData (rs : RegisterState) (reg : Nat) : Bool :=
  (rs.registerData.getD reg none).isSome

def RegisterState.reg_data (rs : RegisterState) (reg : Nat) : Register :=
  (rs.registerData.getD reg none).getD Register.Reset

def RegisterState.IsAllocated (rs : RegisterState) (reg : Nat) : Bool :=
  rs.HasRegisterData reg && (rs.reg_data reg).is_allocated

def RegisterState.VirtualRegisterForRegister (rs : RegisterState) (reg : Nat) : Option Nat :=
  if rs.IsAllocated reg then (rs.reg_data reg).virtualRegister else none

/-- `HasPendingUsesOnly` (the code asserts `IsAllocated(reg)`). -/
def RegisterState.HasPendingUsesOnly (rs : RegisterState) (reg : Nat) : Bool :=
  !(rs.reg_data reg).needsGapMoveOnSpill

def RegisterState.setRegData (rs : RegisterState) (reg : Nat) (r : Register) : RegisterState :=
  ⟨rs.registerData.set reg (some r)⟩

def RegisterState.ResetDataFor (rs : RegisterState) (reg : Nat) : RegisterState :=
  rs.setRegData reg Register.Reset

/-- `RegisterState::Spill` (the code asserts `IsAllocated(reg)`). -/
def RegisterState.Spill (env : Env) (rs : RegisterState) (reg : Nat)
    (allocated : InstructionOperand) (d : MidTierRegisterAllocationData) :
    RegisterState × MidTierRegisterAllocationData :=
  match Register.Spill env (rs.reg_data reg) allocated d with
  | (r, d) => (((rs.setRegData reg r).ResetDataFor reg), d)

/-- `SinglePassRegisterAllocator::UsePosition`. -/
inductive UsePosition where
  | kStart
  | kEnd
  | kAll
  | kNone
deriving DecidableEq

/-- The per-kind single-pass allocator state.  The three per-word bitmaps
are modelled as `Finset Nat` of register indices (`RegisterIndex::ToBit`
is `1 << index`, independent of the representation). -/
structure SinglePassRegisterAllocator where
  virtualRegisterToReg : Nat → Option Nat
  registerState : Option RegisterState
  indexToRegCode : Nat → Nat
  inUseAtInstrStartBits : Finset Nat
  inUseAtInstrEndBits : Finset Nat
  allocatedRegistersBits : Finset Nat

def SinglePassRegisterAllocator.InUseBitmap (a : SinglePassRegisterAllocator)
    (pos : UsePosition) : Finset Nat :=
  match pos with
  | .kStart => a.inUseAtInstrStartBits
  | .kEnd => a.inUseAtInstrEndBits
  | .kAll => a.inUseAtInstrStartBits ∪ a.inUseAtInstrEndBits
  | .kNone => ∅

/-- `AllocatedOperandForReg` (the machine representation only shapes the
operand, not the allocator's behaviour, and is dropped). -/
def SinglePassRegisterAllocator.AllocatedOperandForReg
    (a : SinglePassRegisterAllocator) (reg : Nat) : InstructionOperand :=
  .Allocated .REGISTER (a.indexToRegCode reg)

def SinglePassRegisterAllocator.FreeRegister (a : SinglePassRegisterAllocator)
    (reg : Nat) (virtualRegister : Option Nat) : SinglePassRegisterAllocator :=
  { a with
      allocatedRegistersBits := a.allocatedRegistersBits.erase reg,
      virtualRegisterToReg :=
        match virtualRegister with
        | some v => Function.update a.virtualRegisterToReg v none
        | none => a.virtualRegisterToReg }

/-- `SinglePassRegisterAllocator::SpillRegister`: a no-op unless the
register is currently allocated.  (`register_state()` is asserted
non-null by the accessor; every caller ensures it.) -/
def SinglePassRegisterAllocator.SpillRegister (env : Env)
    (a : SinglePassRegisterAllocator) (reg : Nat)
    (d : MidTierRegisterAllocationData) :
    SinglePassRegisterAllocator × MidTierRegisterAllocationData :=
  match a.registerState with
  | none => (a, d)
  | some rs =>
    if !(rs.IsAllocated reg) then (a, d)
    else
      match rs.VirtualRegisterForRegister reg with
      | some virtualRegister =>
        let allocated := a.AllocatedOperandForReg reg
        match RegisterState.Spill env rs reg allocated d with
        | (rs, d) =>
          (SinglePassRegisterAllocator.FreeRegister
             { a with registerState := some rs } reg (some virtualRegister), d)
      | none => (a, d)

/-- `SinglePassRegisterAllocator::SpillAllRegisters`. -/
def SinglePassRegisterAllocator.SpillAllRegisters (env : Env)
    (a : SinglePassRegisterAllocator) (d : MidTierRegisterAllocationData) :
    SinglePassRegisterAllocator × MidTierRegisterAllocationData :=
  match a.registerState with
  | none => (a, d)
  | some rs =>
    (List.range rs.registerData.length).foldl
      (fun ad reg => SinglePassRegisterAllocator.SpillRegister env ad.1 reg ad.2)
      (a, d)

def SinglePassRegisterAllocator.EndInstruction
    (a : SinglePassRegisterAllocator) : SinglePassRegisterAllocator :=
  { a with inUseAtInstrEndBits := ∅, inUseAtInstrStartBits := ∅ }

/-- `EndBlock` (the code asserts both in-use bitmaps are zero here). -/
def SinglePassRegisterAllocator.EndBlock
    (a : SinglePassRegisterAllocator) : SinglePassRegisterAllocator :=
  { a with registerState := none }

/-- The body of `ChooseRegisterToSpill`'s loop; the accumulator carries
the mutable locals `chosen_reg`, `earliest_definition`,
`pending_only_use` and `already_spilled`. -/
def chooseRegisterToSpillStep (rs : RegisterState)
    (d : MidTierRegisterAllocationData) (inUse : Finset Nat)
    (acc : Option Nat × Int × Bool × Bool) (reg : Nat) :
    Option Nat × Int × Bool × Bool :=
  if reg ∈ inUse then acc
  else
    match rs.VirtualRegisterForRegister reg with
    | none => acc
    | some v =>
      let vd := d.vregs v
      if (!acc.2.2.1 && rs.HasPendingUsesOnly reg)
          || (!acc.2.2.2 && vd.HasSpillOperand)
          || decide (vd.outputInstrIndex < acc.2.1) then
        (some reg, vd.outputInstrIndex, rs.HasPendingUsesOnly reg, vd.HasSpillOperand)
      else acc

/-- `SinglePassRegisterAllocator::ChooseRegisterToSpill`: scan all
registers not in use at `pos`, tracking `chosen_reg`,
`earliest_definition`, `pending_only_use` and `already_spilled` exactly as
the reference loop does.  (The reference implementation asserts that every
scanned non-in-use register is allocated; an unallocated one is skipped
here.) -/
def SinglePassRegisterAllocator.ChooseRegisterToSpill
    (a : SinglePassRegisterAllocator) (d : MidTierRegisterAllocationData)
    (pos : UsePosition) : Option Nat :=
  match a.registerState with
  | none => none
  | some rs =>
    ((List.range rs.registerData.length).foldl
      (chooseRegisterToSpillStep rs d (a.InUseBitmap pos))
      (none, kMaxInt, false, false)).1

/-- A candidate register in the spill-choice scan, with the properties the
scan reads: its vreg's definition index, whether it has only pending uses,
and whether its vreg already has a spill operand. -/
structure SpillCandidate where
  reg : Nat
  definitionIndex : Int
  pendingOnly : Bool
  alreadySpilled : Bool

/-- The selection rule of the amended claim C2: a candidate displaces the
incumbent iff the candidate has only pending uses and the incumbent does
not, or the candidate's vreg already has a spill operand and the
incumbent's does not, or the candidate's vreg has a strictly earlier
definition than the incumbent's. -/
def SpillCandidate.Displaces (cand inc : SpillCandidate) : Bool :=
  (cand.pendingOnly && !inc.pendingOnly)
    || (cand.alreadySpilled && !inc.alreadySpilled)
    || decide (cand.definitionIndex < inc.definitionIndex)

/-- The scan of the amended claim C2, as an incumbent-displacement
recursion: skip in-use (or unallocated) registers; a candidate replaces
the incumbent exactly when `SpillCandidate.Displaces` holds. -/
def chooseRegisterToSpillScan (rs : RegisterState)
    (d : MidTierRegisterAllocationData) (inUse : Finset Nat) :
    List Nat → Option Nat → SpillCandidate → Option Nat
  | [], chosen, _ => chosen
  | reg :: rest, chosen, inc =>
    if reg ∈ inUse then chooseRegisterToSpillScan rs d inUse rest chosen inc
    else
      match rs.VirtualRegisterForRegister reg with
      | none => chooseRegisterToSpillScan rs d inUse rest chosen inc
      | some v =>
        let cand : SpillCandidate :=
          ⟨reg, (d.vregs v).outputInstrIndex, rs.HasPendingUsesOnly reg,
            (d.vregs v).HasSpillOperand⟩
        if cand.Displaces inc then
          chooseRegisterToSpillScan rs d inUse rest (some reg) cand
        else
          chooseRegisterToSpillScan rs d inUse rest chosen inc

/-- The initial incumbent: no chosen register, `earliest_definition =
kMaxInt`, both preference flags false. -/
def ChooseRegisterToSpillSpec (a : SinglePassRegisterAllocator)
    (d : MidTierRegisterAllocationData) (pos : UsePosition) : Option Nat :=
  match a.registerState with
  | none => none
  | some rs =>
    chooseRegisterToSpillScan rs d (a.InUseBitmap pos)
      (List.range rs.registerData.length) none ⟨0, kMaxInt, false, false⟩

/-- A spilled virtual register as collected by `AllocateSpillSlots`: its
byte width (`ByteWidthForStackSlot` of its representation) and its spill
range's live range (which is final once register allocation has run). -/
structure SpillEntry where
  vreg : Nat
  byteWidth : Nat
  liveRange : Range
deriving DecidableEq

/-- `MidTierSpillSlotAllocator::SpillSlot`. -/
structure SpillSlot where
  stackSlot : Nat
  byteWidth : Nat
  range : Range
deriving DecidableEq

def SpillSlot.last_use (s : SpillSlot) : Int := s.range.end_

def SpillSlot.AddRange (s : SpillSlot) (r : Range) : SpillSlot :=
  { s with range := s.range.AddRange r }

/-- The sweep state of `MidTierSpillSlotAllocator`.  `allocated_slots_` is
a priority queue ordered by `last_use` (soonest-expiring on top); its
contents are kept as a list.  `Frame::AllocateSpillSlot` hands out fresh
stack slots, modelled by the counter `nextStackSlot`. -/
structure MidTierSpillSlotAllocator where
  allocatedSlots : List SpillSlot
  freeSlots : List SpillSlot
  position : Int
  nextStackSlot : Nat
deriving DecidableEq

def MidTierSpillSlotAllocator.init : MidTierSpillSlotAllocator :=
  { allocatedSlots := [], freeSlots := [], position := 0, nextStackSlot := 0 }

/-- `AdvanceTo`: the priority queue pops, in order of increasing
`last_use`, exactly every slot with `last_use < instr_index`; each is
pushed onto the free list.  (The order inside the free list does not
affect which slots are free.) -/
def MidTierSpillSlotAllocator.AdvanceTo (st : MidTierSpillSlotAllocator)
    (instrIndex : Int) : MidTierSpillSlotAllocator :=
  { st with
      allocatedSlots := st.allocatedSlots.filter (fun s => decide (instrIndex ≤ s.last_use)),
      freeSlots := st.allocatedSlots.filter (fun s => decide (s.last_use < instrIndex))
        ++ st.freeSlots,
      position := instrIndex }

/-- Remove the first free slot of exactly the requested byte width. -/
def takeFirstOfWidth (byteWidth : Nat) :
    List SpillSlot → Option SpillSlot × List SpillSlot
  | [] => (none, [])
  | s :: rest =>
    if s.byteWidth = byteWidth then (some s, rest)
    else
      match takeFirstOfWidth byteWidth rest with
      | (found, rest2) => (found, s :: rest2)

/-- `GetFreeSpillSlot`. -/
def MidTierSpillSlotAllocator.GetFreeSpillSlot (st : MidTierSpillSlotAllocator)
    (byteWidth : Nat) : Option SpillSlot × MidTierSpillSlotAllocator :=
  match takeFirstOfWidth byteWidth st.freeSlots with
  | (found, rest) => (found, { st with freeSlots := rest })

/-- `MidTierSpillSlotAllocator::Allocate(virtual_register)`: advance to the
spill's start, reuse a free slot of the same byte width or allocate a
fresh one, widen the slot's range by the spill's live range and return the
chosen stack slot. -/
def MidTierSpillSlotAllocator.Allocate (st : MidTierSpillSlotAllocator)
    (entry : SpillEntry) : MidTierSpillSlotAllocator × Nat :=
  let st := st.AdvanceTo entry.liveRange.start
  match st.GetFreeSpillSlot entry.byteWidth with
  | (found, st) =>
    let slotSt : SpillSlot × MidTierSpillSlotAllocator :=
      match found with
      | some s => (s, st)
      | none =>
        (⟨st.nextStackSlot, entry.byteWidth, Range.empty⟩,
         { st with nextStackSlot := st.nextStackSlot + 1 })
    let slot := slotSt.1.AddRange entry.liveRange
    ({ slotSt.2 with allocatedSlots := slot :: slotSt.2.allocatedSlots }, slot.stackSlot)

/-- Run `Allocate` over the (already sorted) spilled virtual registers,
returning each one's assigned stack slot. -/
def allocateSweep (st : MidTierSpillSlotAllocator) :
    List SpillEntry → List (SpillEntry × Nat)
  | [] => []
  | e :: rest =>
    match st.Allocate e with
    | (st2, s) => (e, s) :: allocateSweep st2 rest

/-- `std::sort` by `live_range().start()` (ascending; `std::sort` is
unstable, so the order among equal starts is unconstrained — any
nondecreasing-by-start order satisfies the claims). -/
def sortSpillEntries (entries : List SpillEntry) : List SpillEntry :=
  List.insertionSort (fun a b => a.liveRange.start ≤ b.liveRange.start) entries

/-- `AllocateSpillSlots`' core: sort the spilled vregs by live-range start
and sweep, producing each spilled vreg's stack slot. -/
def AllocateSpillSlotsPairs (entries : List SpillEntry) : List (SpillEntry × Nat) :=
  allocateSweep MidTierSpillSlotAllocator.init (sortSpillEntries entries)

/-- `AllocateSpillSlots(data)`: collect every spilled vreg with a pending
spill operand, assign stack slots by the sweep, and resolve each vreg's
pending spill operands to its slot.  (In the reference code each
`Allocate` resolves its vreg's pending operands immediately; the
resolution never feeds back into the sweep, which only reads the spill
ranges, so resolving after the sweep is equivalent.) -/
def AllocateSpillSlots (d : MidTierRegisterAllocationData)
    (byteWidthOf : Nat → Nat) : MidTierRegisterAllocationData :=
  let entries := (d.spilledVirtualRegisters.filter
      (fun v => d.HasPendingSpillOperand v)).map
    (fun v => ⟨v, byteWidthOf v,
      (match (d.vregs v).spillRange with
       | some sr => sr.liveRange
       | none => Range.empty)⟩)
  (AllocateSpillSlotsPairs entries).foldl
    (fun d es => AllocatePendingSpillOperand d es.1.vreg (.Allocated .STACK_SLOT es.2)) d

/-- `MidTierRegisterAllocator::InitializeBlockState(block)`: mark the block
as dominating itself, then union its dominated set into its immediate
dominator's set.  `idom` is `block->dominator()` as a function of the rpo
number; `st` is the per-block `dominated_blocks` state. -/
def InitializeBlockState (idom : Nat → Option Nat) (st : Nat → Finset Nat)
    (b : Nat) : Nat → Finset Nat :=
  let st1 := Function.update st b (insert b (st b))
  match idom b with
  | some dd => Function.update st1 dd (st1 dd ∪ st1 b)
  | none => st1

/-- The reverse pass of `DefineOutputs`: `InitializeBlockState` on every
block, from the last rpo number down to the first. -/
def InitializeBlockStates (idom : Nat → Option Nat) (blockCount : Nat) :
    Nat → Finset Nat :=
  ((List.range blockCount).reverse).foldl (InitializeBlockState idom) (fun _ => ∅)

/-- Fueled ancestor test on the dominator tree, with every chain node
except the target `b` itself required to be ≥ `k`: used with `k = 0` this
is plain dominance; the threshold tracks which blocks the reverse pass has
already processed. -/
def reachAbove (idom : Nat → Option Nat) (k : Nat) :
    Nat → Nat → Nat → Bool
  | 0, b, c => b == c
  | fuel + 1, b, c =>
    b == c ||
      (decide (k ≤ c) &&
        (match idom c with
         | some dd => reachAbove idom k fuel b dd
         | none => false))

/-- `b` dominates `c` (inclusive of `b = c`): `b` lies on the chain of
immediate dominators above `c`.  Fuel `c + 1` suffices whenever immediate
dominators have smaller rpo numbers. -/
def dominates (idom : Nat → Option Nat) (b c : Nat) : Bool :=
  reachAbove idom 0 (c + 1) b c

/-- `MidTierReferenceMapPopulator::RecordReferences(virtual_register)`:
for a reference-typed vreg with an allocated (stack slot) spill operand,
record the spill operand at every reference-map instruction inside the
spill range.  Recorded references are accumulated as
(instruction index, operand) pairs. -/
def RecordReferences (env : Env) (d : MidTierRegisterAllocationData)
    (referenceMaps : List (Int × InstructionOperand)) (v : Nat) :
    List (Int × InstructionOperand) :=
  if !(d.HasAllocatedSpillOperand v) then referenceMaps
  else if !(env.isReference v) then referenceMaps
  else
    match (d.vregs v).spillRange with
    | none => referenceMaps
    | some sr =>
      let allocated := d.spillOperandValue v
      env.referenceMapInstructions.foldl
        (fun acc instrIndex =>
          if decide (instrIndex > sr.liveRange.end_) || decide (instrIndex < sr.liveRange.start) then acc
          else if sr.IsLiveAt instrIndex (env.blockOf instrIndex) then
            acc ++ [(instrIndex, allocated)]
          else acc)
        referenceMaps

/-- `PopulateReferenceMaps(data)`: `RecordReferences` for every spilled
virtual register. -/
def PopulateReferenceMaps (env : Env) (d : MidTierRegisterAllocationData)
    (referenceMaps : List (Int × InstructionOperand)) :
    List (Int × InstructionOperand) :=
  d.spilledVirtualRegisters.foldl (RecordReferences env d) referenceMaps

/-- Invariant used for claim C8: a constant vreg keeps the record created
by `DefineAsConstantOperand` (pointing at its `ConstantOperand`, id
`cid`), the operand store still holds that constant at `cid`, and `cid`
is an already-allocated operand id. -/
def ConstantInv (v cid : Nat) (defIndex : Int)
    (d : MidTierRegisterAllocationData) : Prop :=
  d.vregs v = VirtualRegisterData.DefineAsConstantOperand cid v defIndex ∧
  d.operands cid = .Constant v ∧
  cid < d.nextOperandId

/-- Invariant used for claims C1: a non-phi, non-constant vreg defined at
`defIndex` either has no spill range yet, or has one whose live range
contains `defIndex + 1` (the index the range was created at). -/
def SpillRangeInv (v : Nat) (defIndex : Int)
    (d : MidTierRegisterAllocationData) : Prop :=
  (d.vregs v).outputInstrIndex = defIndex ∧
  (d.vregs v).isPhi = false ∧
  (d.vregs v).isConstant = false ∧
  ((d.vregs v).spillRange = none ∨
    ∃ sr, (d.vregs v).spillRange = some sr ∧
      sr.liveRange.Contains (defIndex + 1) = true)

/-- Proof device for claim C6: a chain of immediate-dominator links
climbing from `c` to `b` (at least one link), on which every node except
the final `b` is ≥ `k` — the blocks the reverse pass has already
processed. -/
inductive Chain (idom : Nat → Option Nat) (k : Nat) : Nat → Nat → Prop where
  | single {c b : Nat} : k ≤ c → idom c = some b → Chain idom k c b
  | cons {c dd b : Nat} : k ≤ c → idom c = some dd → Chain idom k dd b →
      Chain idom k c b

/-! ## Theorems -/

theorem Range.Contains_AddInstr {r : Range} {j : Int} (i : Int)
    (h : r.Contains j = true) : (r.AddInstr i).Contains j = true := by
  simp only [Range.Contains, Range.AddInstr, Bool.and_eq_true,
    decide_eq_true_eq] at h ⊢
  exact ⟨le_trans (min_le_left _ _) h.1, le_trans h.2 (le_max_left _ _)⟩

theorem ensureSpillRange_of_some (env : Env) (v : Nat)
    (d : MidTierRegisterAllocationData)
    (hyes : (d.vregs v).HasSpillRange = true) :
    EnsureSpillRange env v d = d := by
  unfold EnsureSpillRange
  dsimp only
  rw [if_pos hyes]

theorem ensureSpillRange_vregs_none (env : Env) (v : Nat)
    (d : MidTierRegisterAllocationData)
    (hno : (d.vregs v).HasSpillRange = false)
    (hphi : (d.vregs v).isPhi = false) :
    (EnsureSpillRange env v d).vregs v =
      { d.vregs v with spillRange :=
          (some (SpillRange.forDefinition env ((d.vregs v).outputInstrIndex + 1))) } := by
  unfold EnsureSpillRange
  dsimp only
  rw [if_neg (by simp [hno]), if_neg (by simp [hphi])]
  simp [Function.update_same]

theorem addSpillUse_vregs_v (env : Env) (v : Nat) (i : Int)
    (d : MidTierRegisterAllocationData)
    (hc : (d.vregs v).isConstant = false) :
    (AddSpillUse env v i d).vregs v =
      { (EnsureSpillRange env v d).vregs v with
        spillRange := (((EnsureSpillRange env v d).vregs v).spillRange.map
          (·.ExtendRangeTo i)) } := by
  unfold AddSpillUse
  dsimp only
  rw [if_neg (by simp [hc])]
  simp [Function.update_same]

theorem addSpillUse_inv {env : Env} {v : Nat} {defIndex : Int} (i : Int)
    {d : MidTierRegisterAllocationData} (h : SpillRangeInv v defIndex d) :
    SpillRangeInv v defIndex (AddSpillUse env v i d) := by
  obtain ⟨hout, hphi, hconst, hrange⟩ := h
  have hv := addSpillUse_vregs_v env v i d hconst
  rcases hrange with hnone | ⟨sr, hsr, hcont⟩
  · have hno : (d.vregs v).HasSpillRange = false := by
      simp [VirtualRegisterData.HasSpillRange, hnone]
    have he := ensureSpillRange_vregs_none env v d hno hphi
    rw [he] at hv
    refine ⟨?_, ?_, ?_, Or.inr
      ⟨(SpillRange.forDefinition env ((d.vregs v).outputInstrIndex + 1)).ExtendRangeTo i,
        ?_, ?_⟩⟩
    · rw [hv]; exact hout
    · rw [hv]; exact hphi
    · rw [hv]; exact hconst
    · rw [hv]; rfl
    · simp only [SpillRange.ExtendRangeTo, SpillRange.forDefinition, Range.AddInstr,
        Range.Contains, hout, Bool.and_eq_true, decide_eq_true_eq]
      exact ⟨min_le_left _ _, le_max_left _ _⟩
  · have hyes : (d.vregs v).HasSpillRange = true := by
      simp [VirtualRegisterData.HasSpillRange, hsr]
    have he := ensureSpillRange_of_some env v d hyes
    rw [he] at hv
    refine ⟨?_, ?_, ?_,
      Or.inr ⟨sr.ExtendRangeTo i, ?_, Range.Contains_AddInstr i hcont⟩⟩
    · rw [hv]; exact hout
    · rw [hv]; exact hphi
    · rw [hv]; exact hconst
    · rw [hv]; dsimp only; rw [hsr]; rfl

theorem spillRangeInv_of_vregs_eq {v : Nat} {defIndex : Int}
    {d d2 : MidTierRegisterAllocationData}
    (hvv : d2.vregs v = d.vregs v) (h : SpillRangeInv v defIndex d) :
    SpillRangeInv v defIndex d2 := by
  unfold SpillRangeInv at h ⊢
  rw [hvv]
  exact h

theorem addPendingSpillOperand_inv {v : Nat} {defIndex : Int} (pid : Nat)
    {d : MidTierRegisterAllocationData} (h : SpillRangeInv v defIndex d) :
    SpillRangeInv v defIndex (AddPendingSpillOperand d v pid) := by
  obtain ⟨hout, hphi, hconst, hrange⟩ := h
  unfold AddPendingSpillOperand
  dsimp only
  refine ⟨?_, ?_, ?_, ?_⟩ <;> simp only [Function.update_same]
  · exact hout
  · exact hphi
  · exact hconst
  · exact hrange

theorem spillOperand_inv {env : Env} {v : Nat} {defIndex : Int}
    (operandId : Nat) (i : Int) {d : MidTierRegisterAllocationData}
    (h : SpillRangeInv v defIndex d) :
    SpillRangeInv v defIndex (SpillOperand env v operandId i d) := by
  have h1 := @addSpillUse_inv env _ _ i _ h
  unfold SpillOperand
  dsimp only
  split
  · exact spillRangeInv_of_vregs_eq rfl h1
  · exact addPendingSpillOperand_inv operandId (spillRangeInv_of_vregs_eq rfl h1)

theorem emitGapMoveToInput_inv {env : Env} {v : Nat} {defIndex : Int}
    (toOperand : InstructionOperand) (i : Int)
    {d : MidTierRegisterAllocationData} (h : SpillRangeInv v defIndex d) :
    SpillRangeInv v defIndex (EmitGapMoveToInputFromSpillSlot env v toOperand i d) := by
  have h1 := @addSpillUse_inv env _ _ i _ h
  unfold EmitGapMoveToInputFromSpillSlot
  dsimp only
  split
  · exact spillRangeInv_of_vregs_eq rfl h1
  · exact spillRangeInv_of_vregs_eq rfl
      (addPendingSpillOperand_inv _ (spillRangeInv_of_vregs_eq rfl h1))

theorem emitGapMoveToSpillSlot_inv {env : Env} {v : Nat} {defIndex : Int}
    (fromOperand : InstructionOperand) (i : Int)
    {d : MidTierRegisterAllocationData} (h : SpillRangeInv v defIndex d) :
    SpillRangeInv v defIndex (EmitGapMoveToSpillSlot env v fromOperand i d) := by
  have h1 := @addSpillUse_inv env _ _ i _ h
  unfold EmitGapMoveToSpillSlot
  dsimp only
  split
  · exact spillRangeInv_of_vregs_eq rfl h1
  · exact addPendingSpillOperand_inv _ (spillRangeInv_of_vregs_eq rfl h1)

theorem emitGapMoveToSpillSlot_fold_inv {env : Env} {v : Nat} {defIndex : Int}
    (fromOperand : InstructionOperand) (succs : List Nat) :
    ∀ {d : MidTierRegisterAllocationData}, SpillRangeInv v defIndex d →
      SpillRangeInv v defIndex
        (succs.foldl (fun d succ => EmitGapMoveToSpillSlot env v fromOperand
          (env.blocks succ).firstInstructionIndex d) d) := by
  induction succs with
  | nil => intro d h; exact h
  | cons succ rest ih =>
    intro d h
    exact ih (emitGapMoveToSpillSlot_inv fromOperand _ h)

theorem emitGapMoveFromOutput_inv {env : Env} {v : Nat} {defIndex : Int}
    (fromOperand : InstructionOperand) (blockRpo : Nat) (i : Int)
    {d : MidTierRegisterAllocationData} (h : SpillRangeInv v defIndex d) :
    SpillRangeInv v defIndex
      (EmitGapMoveFromOutputToSpillSlot env v fromOperand blockRpo i d) := by
  unfold EmitGapMoveFromOutputToSpillSlot
  split
  · exact emitGapMoveToSpillSlot_fold_inv fromOperand _ h
  · exact emitGapMoveToSpillSlot_inv fromOperand _ h

theorem applySpillUseOps_inv {env : Env} {v : Nat} {defIndex : Int}
    (ops : List SpillUseOp) :
    ∀ {d : MidTierRegisterAllocationData}, SpillRangeInv v defIndex d →
      SpillRangeInv v defIndex (applySpillUseOps env v ops d) := by
  induction ops with
  | nil => intro d h; exact h
  | cons op rest ih =>
    intro d h
    refine ih ?_
    cases op with
    | spillOperand operandId i => exact spillOperand_inv operandId i h
    | gapMoveToInput toOperand i => exact emitGapMoveToInput_inv toOperand i h
    | gapMoveToSpillSlot fromOperand i => exact emitGapMoveToSpillSlot_inv fromOperand i h
    | gapMoveFromOutput fromOperand blockRpo i =>
        exact emitGapMoveFromOutput_inv fromOperand blockRpo i h
    | addSpillUse i => exact addSpillUse_inv i h

/-- C1 (amended): for a non-phi, non-constant virtual register defined at
instruction `defIndex`, the spill range is first constructed as
`Range(defIndex + 1, defIndex + 1)` with `live_blocks` equal to the
dominated-blocks set of instruction `defIndex + 1` (the instruction
*after* the definition — "the spill slot will be defined after the
instruction that outputs it"), and under any sequence of spill operations
the spill range's live range always includes `defIndex + 1` (not, in
general, `defIndex` itself). -/
theorem c1_spill_range_amended (env : Env) (v : Nat) (defIndex : Int)
    (ops : List SpillUseOp) (d : MidTierRegisterAllocationData)
    (hdef : d.vregs v = VirtualRegisterData.DefineAsUnallocatedOperand v defIndex) :
    ((EnsureSpillRange env v d).vregs v).spillRange =
        some (SpillRange.forDefinition env (defIndex + 1)) ∧
    (∀ sr, ((applySpillUseOps env v ops d).vregs v).spillRange = some sr →
        sr.liveRange.Contains (defIndex + 1) = true) := by
  have hnone : (d.vregs v).spillRange = none := by rw [hdef]; rfl
  have hphi : (d.vregs v).isPhi = false := by rw [hdef]; rfl
  have hconst : (d.vregs v).isConstant = false := by rw [hdef]; rfl
  have hout : (d.vregs v).outputInstrIndex = defIndex := by rw [hdef]; rfl
  constructor
  · have hno : (d.vregs v).HasSpillRange = false := by
      simp [VirtualRegisterData.HasSpillRange, hnone]
    have he := ensureSpillRange_vregs_none env v d hno hphi
    rw [he]
    dsimp only
    rw [hout]
  · intro sr hsr
    have hinv : SpillRangeInv v defIndex d := ⟨hout, hphi, hconst, Or.inl hnone⟩
    rcases (@applySpillUseOps_inv env _ _ ops _ hinv).2.2.2 with hn | ⟨sr2, hsr2, hcont⟩
    · rw [hsr] at hn; exact absurd hn (by simp)
    · rw [hsr] at hsr2
      cases Option.some.inj hsr2
      exact hcont

/-- C1 (counterexample to the claim as stated): vreg 0 is defined (non-phi,
non-constant) at instruction 5; its spill range is first constructed as
`Range(6, 6)` — not `Range(5, 5)` — and after a spill use at instruction 7
its live range is `[6, 7]`, which does *not* include the vreg's
`output_instr_index` 5. -/
theorem c1_counterexample :
    let env : Env := ⟨fun _ => ⟨0, 10, [], [], none⟩, fun _ => 0,
      fun _ => {0}, [], fun _ => false⟩
    let d : MidTierRegisterAllocationData :=
      { vregs := fun _ => VirtualRegisterData.DefineAsUnallocatedOperand 0 5,
        operands := fun _ => .Pending, nextOperandId := 1, gapMoves := [],
        spilledVirtualRegisters := [] }
    (((EnsureSpillRange env 0 d).vregs 0).spillRange.map (fun sr => sr.liveRange)
        = some ⟨6, 6⟩) ∧
    (((SpillOperand env 0 0 7 d).vregs 0).spillRange.map (fun sr => sr.liveRange)
        = some ⟨6, 7⟩) ∧
    (((SpillOperand env 0 0 7 d).vregs 0).spillRange.map
        (fun sr => sr.liveRange.Contains 5) = some false) := by
  decide

/-- Witness for `c1_spill_range_amended` at a concrete input. -/
theorem c1_witness :
    (let env : Env := ⟨fun _ => ⟨0, 10, [], [], none⟩, fun _ => 0,
        fun _ => {0}, [], fun _ => false⟩
     let d : MidTierRegisterAllocationData :=
       { vregs := fun _ => VirtualRegisterData.DefineAsUnallocatedOperand 0 5,
         operands := fun _ => .Pending, nextOperandId := 1, gapMoves := [],
         spilledVirtualRegisters := [] }
     d.vregs 0 = VirtualRegisterData.DefineAsUnallocatedOperand 0 5 ∧
     (((EnsureSpillRange env 0 d).vregs 0).spillRange =
         some (SpillRange.forDefinition env 6) ∧
      (∀ sr, ((applySpillUseOps env 0 [.spillOperand 0 7] d).vregs 0).spillRange = some sr →
          sr.liveRange.Contains 6 = true))) :=
  ⟨rfl, c1_spill_range_amended _ 0 5 [.spillOperand 0 7] _ rfl⟩

theorem chooseRegisterToSpillScan_eq (rs : RegisterState)
    (d : MidTierRegisterAllocationData) (inUse : Finset Nat) (l : List Nat) :
    ∀ (chosen : Option Nat) (e : Int) (p s : Bool) (r0 : Nat),
      (l.foldl (chooseRegisterToSpillStep rs d inUse) (chosen, e, p, s)).1 =
        chooseRegisterToSpillScan rs d inUse l chosen ⟨r0, e, p, s⟩ := by
  induction l with
  | nil => intro chosen e p s r0; rfl
  | cons reg rest ih =>
    intro chosen e p s r0
    simp only [List.foldl_cons, chooseRegisterToSpillScan, chooseRegisterToSpillStep]
    by_cases hmem : reg ∈ inUse
    · simp only [if_pos hmem]
      exact ih chosen e p s r0
    · simp only [if_neg hmem]
      cases hv : rs.VirtualRegisterForRegister reg with
      | none => exact ih chosen e p s r0
      | some v =>
        dsimp only
        have hd : SpillCandidate.Displaces
            ⟨reg, (d.vregs v).outputInstrIndex, rs.HasPendingUsesOnly reg,
              (d.vregs v).HasSpillOperand⟩ ⟨r0, e, p, s⟩
            = ((!p && rs.HasPendingUsesOnly reg)
                || (!s && (d.vregs v).HasSpillOperand)
                || decide ((d.vregs v).outputInstrIndex < e)) := by
          simp [SpillCandidate.Displaces, Bool.and_comm]
        rw [hd]
        by_cases hc : ((!p && rs.HasPendingUsesOnly reg)
            || (!s && (d.vregs v).HasSpillOperand)
            || decide ((d.vregs v).outputInstrIndex < e)) = true
        · simp only [hc, if_pos]
          exact ih (some reg) (d.vregs v).outputInstrIndex
            (rs.HasPendingUsesOnly reg) (d.vregs v).HasSpillOperand reg
        · simp only [if_neg hc]
          exact ih chosen e p s r0

/-- C2 (amended): `ChooseRegisterToSpill` scans every register not in use
at the requested position (in increasing index order), keeping an
incumbent that starts with `earliest_definition = kMaxInt` and both
preference flags false; a scanned register displaces the incumbent iff it
has only pending uses and the incumbent does not, or its vreg already has
a spill operand and the incumbent's does not, or its vreg's
`output_instr_index` is strictly earlier than the incumbent's.  The
selection is therefore not a strict three-level priority: a
higher-priority incumbent can be displaced by a later register satisfying
only a lower-priority criterion. -/
theorem c2_choose_register_to_spill_amended
    (a : SinglePassRegisterAllocator) (d : MidTierRegisterAllocationData)
    (pos : UsePosition) :
    a.ChooseRegisterToSpill d pos = ChooseRegisterToSpillSpec a d pos := by
  unfold SinglePassRegisterAllocator.ChooseRegisterToSpill ChooseRegisterToSpillSpec
  cases a.registerState with
  | none => rfl
  | some rs =>
    exact chooseRegisterToSpillScan_eq rs d (a.InUseBitmap pos)
      (List.range rs.registerData.length) none kMaxInt false false 0

/-- C2 (counterexample to the claim as stated): register 0 is not in use
and holds only pending uses (the highest-priority criterion), yet the
scan returns register 1, which has a committed use and is preferred only
because its vreg already has a spill operand — a later-scanned register
satisfying only a lower-priority criterion displaces it. -/
theorem c2_counterexample :
    let rs : RegisterState := ⟨[some ⟨false, 3, some 0, []⟩, some ⟨true, 4, some 1, []⟩]⟩
    let d : MidTierRegisterAllocationData :=
      { vregs := fun v => if v = 1 then ⟨.operand 0, none, 5, 1, false, false⟩
                          else ⟨.null, none, 3, 0, false, false⟩,
        operands := fun _ => .Allocated .STACK_SLOT 0, nextOperandId := 1,
        gapMoves := [], spilledVirtualRegisters := [] }
    let a : SinglePassRegisterAllocator :=
      { virtualRegisterToReg := fun _ => none, registerState := some rs,
        indexToRegCode := fun i => i, inUseAtInstrStartBits := ∅,
        inUseAtInstrEndBits := ∅, allocatedRegistersBits := ∅ }
    a.ChooseRegisterToSpill d .kStart = some 1 ∧
    rs.IsAllocated 0 = true ∧
    rs.HasPendingUsesOnly 0 = true ∧
    (0 : Nat) ∉ a.InUseBitmap .kStart ∧
    rs.HasPendingUsesOnly 1 = false := by
  decide

theorem ensureSpillRange_data (env : Env) (v : Nat)
    (d : MidTierRegisterAllocationData) :
    (EnsureSpillRange env v d).operands = d.operands ∧
    (EnsureSpillRange env v d).nextOperandId = d.nextOperandId ∧
    (EnsureSpillRange env v d).gapMoves = d.gapMoves := by
  unfold EnsureSpillRange
  dsimp only
  split
  · exact ⟨rfl, rfl, rfl⟩
  · exact ⟨rfl, rfl, rfl⟩

theorem addSpillUse_data (env : Env) (v : Nat) (i : Int)
    (d : MidTierRegisterAllocationData) :
    (AddSpillUse env v i d).operands = d.operands ∧
    (AddSpillUse env v i d).nextOperandId = d.nextOperandId ∧
    (AddSpillUse env v i d).gapMoves = d.gapMoves := by
  unfold AddSpillUse
  dsimp only
  split
  · exact ⟨rfl, rfl, rfl⟩
  · exact ensureSpillRange_data env v d

theorem addPendingSpillOperand_data (d : MidTierRegisterAllocationData)
    (v pid : Nat) :
    (AddPendingSpillOperand d v pid).operands = d.operands ∧
    (AddPendingSpillOperand d v pid).nextOperandId = d.nextOperandId ∧
    (AddPendingSpillOperand d v pid).gapMoves = d.gapMoves :=
  ⟨rfl, rfl, rfl⟩

/-- `EmitGapMoveToSpillSlot` appends exactly one gap move, at
`(instr_index, START)`, in both the resolved and the pending case. -/
theorem emitGapMoveToSpillSlot_gapMoves (env : Env) (v : Nat)
    (fromOperand : InstructionOperand) (i : Int)
    (d : MidTierRegisterAllocationData) :
    (EmitGapMoveToSpillSlot env v fromOperand i d).gapMoves =
      d.gapMoves ++ [⟨i, .START, d.nextOperandId, d.nextOperandId + 1⟩] := by
  obtain ⟨hops, hnext, hgap⟩ := addSpillUse_data env v i d
  unfold EmitGapMoveToSpillSlot
  dsimp only
  split
  · simp [MidTierRegisterAllocationData.AddGapMove, hnext, hgap]
  · simp [MidTierRegisterAllocationData.AddPendingOperandGapMove,
      MidTierRegisterAllocationData.AddGapMove, AddPendingSpillOperand,
      hnext, hgap]

theorem emitGapMoveToSpillSlot_fold_gapMoves (env : Env) (v : Nat)
    (fromOperand : InstructionOperand) (succs : List Nat) :
    ∀ d : MidTierRegisterAllocationData,
      ((succs.foldl (fun d succ => EmitGapMoveToSpillSlot env v fromOperand
          (env.blocks succ).firstInstructionIndex d) d).gapMoves.map
        (fun m => (m.instrIndex, m.position))) =
      d.gapMoves.map (fun m => (m.instrIndex, m.position)) ++
        succs.map (fun s => ((env.blocks s).firstInstructionIndex, GapPosition.START)) := by
  induction succs with
  | nil => intro d; simp
  | cons s rest ih =>
    intro d
    simp only [List.foldl_cons, List.map_cons]
    rw [ih, emitGapMoveToSpillSlot_gapMoves]
    simp

/-- C5: `EmitGapMoveFromOutputToSpillSlot(from, block, i)`: if `i` equals
the block's last instruction index, one gap move into the spill slot is
emitted at the first instruction of every successor block (at gap
position START; the code asserts each such successor has exactly one
predecessor); otherwise a single gap move is emitted at instruction
`i + 1` (position START). -/
theorem c5_emit_gap_move_from_output (env : Env) (v : Nat)
    (fromOperand : InstructionOperand) (currentBlock : Nat) (instrIndex : Int)
    (d : MidTierRegisterAllocationData)
    (hblock : env.blockOf instrIndex = currentBlock)
    (hpreds : ∀ s ∈ (env.blocks currentBlock).successors,
        (env.blocks s).PredecessorCount = 1) :
    ((EmitGapMoveFromOutputToSpillSlot env v fromOperand currentBlock instrIndex d).gapMoves.map
        (fun m => (m.instrIndex, m.position))) =
      d.gapMoves.map (fun m => (m.instrIndex, m.position)) ++
        (if instrIndex = (env.blocks currentBlock).lastInstructionIndex then
          (env.blocks currentBlock).successors.map
            (fun s => ((env.blocks s).firstInstructionIndex, GapPosition.START))
        else [(instrIndex + 1, GapPosition.START)]) := by
  unfold EmitGapMoveFromOutputToSpillSlot
  split
  · exact emitGapMoveToSpillSlot_fold_gapMoves env v fromOperand _ d
  · rw [emitGapMoveToSpillSlot_gapMoves]
    simp

/-- Witness for `c5_emit_gap_move_from_output` at a concrete input: block 0
ends at instruction 5 with successors 1 and 2 (each with exactly one
predecessor); the move is emitted at both successors' first instructions. -/
theorem c5_witness :
    (let env : Env := ⟨fun n => if n = 0 then ⟨0, 5, [1, 2], [], none⟩
        else ⟨6, 8, [], [0], some 0⟩, fun _ => 0, fun _ => {0}, [], fun _ => false⟩
     let d : MidTierRegisterAllocationData :=
       { vregs := fun _ => VirtualRegisterData.DefineAsUnallocatedOperand 0 2,
         operands := fun _ => .Pending, nextOperandId := 1, gapMoves := [],
         spilledVirtualRegisters := [] }
     env.blockOf 5 = 0 ∧
     (∀ s ∈ (env.blocks 0).successors, (env.blocks s).PredecessorCount = 1) ∧
     ((EmitGapMoveFromOutputToSpillSlot env 0 (.Allocated .REGISTER 0) 0 5 d).gapMoves.map
          (fun m => (m.instrIndex, m.position))) =
        d.gapMoves.map (fun m => (m.instrIndex, m.position)) ++
          (if (5 : Int) = (env.blocks 0).lastInstructionIndex then
            (env.blocks 0).successors.map
              (fun s => ((env.blocks s).firstInstructionIndex, GapPosition.START))
          else [((5 : Int) + 1, GapPosition.START)])) :=
  ⟨rfl, by decide, c5_emit_gap_move_from_output _ 0 _ 0 5 _ rfl (by decide)⟩

theorem InstructionOperand.isAllocated_false_of_isPending
    (op : InstructionOperand) (h : op.IsPending = true) :
    op.IsAllocated = false := by
  cases op <;> simp_all [InstructionOperand.IsPending, InstructionOperand.IsAllocated]

theorem InstructionOperand.isAllocated_false_of_isConstant
    (op : InstructionOperand) (h : op.IsConstant = true) :
    op.IsAllocated = false := by
  cases op <;> simp_all [InstructionOperand.IsConstant, InstructionOperand.IsAllocated]

theorem recordReferences_fold (env : Env) (sr : SpillRange)
    (allocated : InstructionOperand) (l : List Int) :
    ∀ acc : List (Int × InstructionOperand),
      l.foldl (fun acc instrIndex =>
        if decide (instrIndex > sr.liveRange.end_) || decide (instrIndex < sr.liveRange.start) then acc
        else if sr.IsLiveAt instrIndex (env.blockOf instrIndex) then
          acc ++ [(instrIndex, allocated)]
        else acc) acc =
      acc ++ (l.filter (fun i => sr.IsLiveAt i (env.blockOf i))).map
        (fun i => (i, allocated)) := by
  induction l with
  | nil => intro acc; simp
  | cons i rest ih =>
    intro acc
    simp only [List.foldl_cons]
    by_cases hskip : (decide (i > sr.liveRange.end_) || decide (i < sr.liveRange.start)) = true
    · have hcont : sr.liveRange.Contains i = false := by
        have hor : sr.liveRange.end_ < i ∨ i < sr.liveRange.start := by
          simpa using hskip
        rcases hor with h | h
        · simp [Range.Contains]
          omega
        · simp [Range.Contains]
          omega
      have hlive : sr.IsLiveAt i (env.blockOf i) = false := by
        simp [SpillRange.IsLiveAt, hcont]
      rw [if_pos hskip, ih]
      simp [hlive]
    · rw [if_neg hskip]
      by_cases hl : sr.IsLiveAt i (env.blockOf i) = true
      · rw [if_pos hl, ih]
        simp [hl]
      · rw [if_neg hl, ih]
        simp [Bool.eq_false_iff.mpr hl]

/-- C7: for a spilled vreg whose representation is a heap reference and
whose spill operand is a resolved stack-slot (allocated) operand,
`RecordReferences` (invoked by `PopulateReferenceMaps` on every spilled
vreg) records the spill operand at exactly those reference-map
instruction indices that lie within the vreg's spill live range and whose
containing block is in the spill range's `live_blocks`; a vreg whose
spill operand is not allocated (pending or constant) or whose
representation is not a reference contributes nothing. -/
theorem c7_record_references (env : Env) (d : MidTierRegisterAllocationData)
    (referenceMaps : List (Int × InstructionOperand)) (v : Nat) :
    (∀ sr, d.HasAllocatedSpillOperand v = true → env.isReference v = true →
      (d.vregs v).spillRange = some sr →
      RecordReferences env d referenceMaps v =
        referenceMaps ++ (env.referenceMapInstructions.filter
          (fun i => sr.IsLiveAt i (env.blockOf i))).map
          (fun i => (i, d.spillOperandValue v))) ∧
    (d.HasAllocatedSpillOperand v = false ∨ env.isReference v = false →
      RecordReferences env d referenceMaps v = referenceMaps) ∧
    (d.HasPendingSpillOperand v = true →
      RecordReferences env d referenceMaps v = referenceMaps) ∧
    ((d.spillOperandValue v).IsConstant = true →
      RecordReferences env d referenceMaps v = referenceMaps) := by
  have hnotalloc : d.HasAllocatedSpillOperand v = false →
      RecordReferences env d referenceMaps v = referenceMaps := by
    intro h
    unfold RecordReferences
    rw [if_pos (by simp [h])]
  refine ⟨?_, ?_, ?_, ?_⟩
  · intro sr halloc href hsr
    unfold RecordReferences
    rw [if_neg (by simp [halloc]), if_neg (by simp [href]), hsr]
    exact recordReferences_fold env sr (d.spillOperandValue v)
      env.referenceMapInstructions referenceMaps
  · rintro (h | h)
    · exact hnotalloc h
    · by_cases ha : d.HasAllocatedSpillOperand v = true
      · unfold RecordReferences
        rw [if_neg (by simp [ha]), if_pos (by simp [h])]
      · exact hnotalloc (Bool.eq_false_iff.mpr ha)
  · intro h
    refine hnotalloc ?_
    unfold MidTierRegisterAllocationData.HasAllocatedSpillOperand
    unfold MidTierRegisterAllocationData.HasPendingSpillOperand at h
    rw [InstructionOperand.isAllocated_false_of_isPending _ (Bool.and_elim_right h)]
    simp
  · intro h
    refine hnotalloc ?_
    unfold MidTierRegisterAllocationData.HasAllocatedSpillOperand
    rw [InstructionOperand.isAllocated_false_of_isConstant _ h]
    simp

/-- Witness for `c7_record_references` at a concrete input: vreg 0 is a
spilled reference with stack slot 4 and live range [2, 6] over block 0;
of the reference-map instructions [1, 3, 7], only 3 is recorded. -/
theorem c7_witness :
    (let env : Env := ⟨fun _ => ⟨0, 10, [], [], none⟩, fun _ => 0,
        fun _ => {0}, [1, 3, 7], fun _ => true⟩
     let d : MidTierRegisterAllocationData :=
       { vregs := fun _ => ⟨.operand 0, some ⟨⟨2, 6⟩, {0}⟩, 1, 0, false, false⟩,
         operands := fun _ => .Allocated .STACK_SLOT 4, nextOperandId := 1,
         gapMoves := [], spilledVirtualRegisters := [0] }
     d.HasAllocatedSpillOperand 0 = true ∧ env.isReference 0 = true ∧
     (d.vregs 0).spillRange = some ⟨⟨2, 6⟩, {0}⟩ ∧
     RecordReferences env d [] 0 =
       [] ++ (env.referenceMapInstructions.filter
          (fun i => SpillRange.IsLiveAt ⟨⟨2, 6⟩, {0}⟩ i (env.blockOf i))).map
          (fun i => (i, d.spillOperandValue 0))) :=
  ⟨by decide, rfl, rfl,
    (c7_record_references _ _ [] 0).1 ⟨⟨2, 6⟩, {0}⟩ (by decide) rfl rfl⟩

theorem addSpillUse_constant {env : Env} {v cid : Nat} {defIndex : Int}
    (i : Int) {d : MidTierRegisterAllocationData}
    (h : ConstantInv v cid defIndex d) :
    AddSpillUse env v i d = d := by
  unfold AddSpillUse
  dsimp only
  rw [if_pos (show (d.vregs v).isConstant = true by rw [h.1]; rfl)]

theorem hasConstant_of_constantInv {v cid : Nat} {defIndex : Int}
    {d : MidTierRegisterAllocationData} (h : ConstantInv v cid defIndex d) :
    (d.HasAllocatedSpillOperand v || d.HasConstantSpillOperand v) = true := by
  have : d.HasConstantSpillOperand v = true := by
    unfold MidTierRegisterAllocationData.HasConstantSpillOperand
    rw [h.1]
    rfl
  simp [this]

theorem spillOperandValue_of_constantInv {v cid : Nat} {defIndex : Int}
    {d : MidTierRegisterAllocationData} (h : ConstantInv v cid defIndex d) :
    d.spillOperandValue v = .Constant v := by
  unfold MidTierRegisterAllocationData.spillOperandValue
  rw [h.1]
  exact h.2.1

theorem spillOperand_constantInv {env : Env} {v cid : Nat} {defIndex : Int}
    (oid : Nat) (i : Int) {d : MidTierRegisterAllocationData}
    (h : ConstantInv v cid defIndex d) :
    ConstantInv v cid defIndex (SpillOperand env v oid i d) ∧
    (SpillOperand env v oid i d).operands oid = .Constant v := by
  obtain ⟨hv, hc, hlt⟩ := h
  unfold SpillOperand
  dsimp only
  rw [addSpillUse_constant i ⟨hv, hc, hlt⟩,
    if_pos (hasConstant_of_constantInv ⟨hv, hc, hlt⟩),
    spillOperandValue_of_constantInv ⟨hv, hc, hlt⟩]
  refine ⟨⟨hv, ?_, hlt⟩, ?_⟩
  · by_cases he : cid = oid
    · subst he
      simp [Function.update_same]
    · dsimp only
      rw [Function.update_noteq he]
      exact hc
  · simp [Function.update_same]

theorem emitGapMoveToInput_constantInv {env : Env} {v cid : Nat}
    {defIndex : Int} (toOperand : InstructionOperand) (i : Int)
    {d : MidTierRegisterAllocationData} (h : ConstantInv v cid defIndex d) :
    ConstantInv v cid defIndex (EmitGapMoveToInputFromSpillSlot env v toOperand i d) := by
  obtain ⟨hv, hc, hlt⟩ := h
  unfold EmitGapMoveToInputFromSpillSlot
  dsimp only
  rw [addSpillUse_constant i ⟨hv, hc, hlt⟩,
    if_pos (hasConstant_of_constantInv ⟨hv, hc, hlt⟩)]
  unfold MidTierRegisterAllocationData.AddGapMove
  dsimp only
  refine ⟨hv, ?_, by dsimp only; omega⟩
  dsimp only
  rw [Function.update_noteq (by omega), Function.update_noteq (by omega)]
  exact hc

theorem emitGapMoveToSpillSlot_constantInv {env : Env} {v cid : Nat}
    {defIndex : Int} (fromOperand : InstructionOperand) (i : Int)
    {d : MidTierRegisterAllocationData} (h : ConstantInv v cid defIndex d) :
    ConstantInv v cid defIndex (EmitGapMoveToSpillSlot env v fromOperand i d) := by
  obtain ⟨hv, hc, hlt⟩ := h
  unfold EmitGapMoveToSpillSlot
  dsimp only
  rw [addSpillUse_constant i ⟨hv, hc, hlt⟩,
    if_pos (hasConstant_of_constantInv ⟨hv, hc, hlt⟩)]
  unfold MidTierRegisterAllocationData.AddGapMove
  dsimp only
  refine ⟨hv, ?_, by dsimp only; omega⟩
  dsimp only
  rw [Function.update_noteq (by omega), Function.update_noteq (by omega)]
  exact hc

theorem emitGapMoveToSpillSlot_fold_constantInv {env : Env} {v cid : Nat}
    {defIndex : Int} (fromOperand : InstructionOperand) (succs : List Nat) :
    ∀ {d : MidTierRegisterAllocationData}, ConstantInv v cid defIndex d →
      ConstantInv v cid defIndex
        (succs.foldl (fun d succ => EmitGapMoveToSpillSlot env v fromOperand
          (env.blocks succ).firstInstructionIndex d) d) := by
  induction succs with
  | nil => intro d h; exact h
  | cons s rest ih =>
    intro d h
    exact ih (emitGapMoveToSpillSlot_constantInv fromOperand _ h)

theorem emitGapMoveFromOutput_constantInv {env : Env} {v cid : Nat}
    {defIndex : Int} (fromOperand : InstructionOperand) (blockRpo : Nat)
    (i : Int) {d : MidTierRegisterAllocationData}
    (h : ConstantInv v cid defIndex d) :
    ConstantInv v cid defIndex
      (EmitGapMoveFromOutputToSpillSlot env v fromOperand blockRpo i d) := by
  unfold EmitGapMoveFromOutputToSpillSlot
  split
  · exact emitGapMoveToSpillSlot_fold_constantInv fromOperand _ h
  · exact emitGapMoveToSpillSlot_constantInv fromOperand _ h

theorem applySpillUseOps_constantInv {env : Env} {v cid : Nat}
    {defIndex : Int} (ops : List SpillUseOp) :
    ∀ {d : MidTierRegisterAllocationData}, ConstantInv v cid defIndex d →
      ConstantInv v cid defIndex (applySpillUseOps env v ops d) := by
  induction ops with
  | nil => intro d h; exact h
  | cons op rest ih =>
    intro d h
    refine ih ?_
    cases op with
    | spillOperand oid i => exact (spillOperand_constantInv oid i h).1
    | gapMoveToInput toOperand i => exact emitGapMoveToInput_constantInv toOperand i h
    | gapMoveToSpillSlot fromOperand i =>
        exact emitGapMoveToSpillSlot_constantInv fromOperand i h
    | gapMoveFromOutput fromOperand blockRpo i =>
        exact emitGapMoveFromOutput_constantInv fromOperand blockRpo i h
    | addSpillUse i =>
        show ConstantInv v cid defIndex (AddSpillUse env v i d)
        rw [addSpillUse_constant i h]
        exact h

/-- C8: a constant virtual register (defined by `DefineAsConstantOperand`,
with the `ConstantOperand` at operand id `cid`) never acquires a spill
range under any sequence of spill operations, and its spill operand never
leaves the constant state: the per-vreg record is unchanged, the operand
store still holds the constant, and `SpillOperand` on the constant
overwrites the target operand with the `ConstantOperand` itself rather
than creating a pending placeholder. -/
theorem c8_constant_invariant (env : Env) (v cid : Nat) (defIndex : Int)
    (ops : List SpillUseOp) (d : MidTierRegisterAllocationData)
    (hdef : d.vregs v = VirtualRegisterData.DefineAsConstantOperand cid v defIndex)
    (hcid : d.operands cid = .Constant v)
    (hlt : cid < d.nextOperandId) :
    (applySpillUseOps env v ops d).vregs v = d.vregs v ∧
    ((applySpillUseOps env v ops d).vregs v).spillRange = none ∧
    ((applySpillUseOps env v ops d).vregs v).spillOperand = .operand cid ∧
    (applySpillUseOps env v ops d).operands cid = .Constant v ∧
    (∀ operandId instrIndex,
      (SpillOperand env v operandId instrIndex
        (applySpillUseOps env v ops d)).operands operandId = .Constant v) := by
  have hinv := @applySpillUseOps_constantInv env _ _ _ ops _ ⟨hdef, hcid, hlt⟩
  refine ⟨?_, ?_, ?_, hinv.2.1, fun oid i => (spillOperand_constantInv oid i hinv).2⟩
  · rw [hinv.1, hdef]
  · rw [hinv.1]; rfl
  · rw [hinv.1]; rfl

/-- Witness for `c8_constant_invariant` at a concrete input. -/
theorem c8_witness :
    (let env : Env := ⟨fun _ => ⟨0, 10, [], [], none⟩, fun _ => 0,
        fun _ => {0}, [], fun _ => false⟩
     let d : MidTierRegisterAllocationData :=
       { vregs := fun _ => VirtualRegisterData.DefineAsConstantOperand 0 0 2,
         operands := fun _ => .Constant 0, nextOperandId := 1, gapMoves := [],
         spilledVirtualRegisters := [] }
     let ops : List SpillUseOp := [.spillOperand 1 4, .gapMoveToInput (.Allocated .REGISTER 1) 5]
     d.vregs 0 = VirtualRegisterData.DefineAsConstantOperand 0 0 2 ∧
     d.operands 0 = .Constant 0 ∧ 0 < d.nextOperandId ∧
     ((applySpillUseOps env 0 ops d).vregs 0 = d.vregs 0 ∧
      ((applySpillUseOps env 0 ops d).vregs 0).spillRange = none ∧
      ((applySpillUseOps env 0 ops d).vregs 0).spillOperand = .operand 0 ∧
      (applySpillUseOps env 0 ops d).operands 0 = .Constant 0 ∧
      (∀ operandId instrIndex,
        (SpillOperand env 0 operandId instrIndex
          (applySpillUseOps env 0 ops d)).operands operandId = .Constant 0))) :=
  ⟨rfl, rfl, by decide,
    c8_constant_invariant _ 0 0 2 [.spillOperand 1 4, .gapMoveToInput (.Allocated .REGISTER 1) 5] _ rfl rfl (by decide)⟩

theorem ensureSpillRange_preserves (env : Env) (v : Nat)
    (d : MidTierRegisterAllocationData) :
    ((EnsureSpillRange env v d).vregs v).spillOperand = (d.vregs v).spillOperand ∧
    ((EnsureSpillRange env v d).vregs v).isConstant = (d.vregs v).isConstant := by
  unfold EnsureSpillRange
  dsimp only
  split
  · exact ⟨rfl, rfl⟩
  · simp [Function.update_same]

theorem addSpillUse_preserves (env : Env) (v : Nat) (i : Int)
    (d : MidTierRegisterAllocationData) :
    ((AddSpillUse env v i d).vregs v).spillOperand = (d.vregs v).spillOperand ∧
    ((AddSpillUse env v i d).vregs v).isConstant = (d.vregs v).isConstant := by
  unfold AddSpillUse
  dsimp only
  split
  · exact ⟨rfl, rfl⟩
  · simp only [Function.update_same]
    exact ensureSpillRange_preserves env v d

theorem addSpillUse_resolution (env : Env) (v : Nat) (i : Int)
    (d : MidTierRegisterAllocationData) :
    (AddSpillUse env v i d).HasAllocatedSpillOperand v = d.HasAllocatedSpillOperand v ∧
    (AddSpillUse env v i d).HasConstantSpillOperand v = d.HasConstantSpillOperand v ∧
    (AddSpillUse env v i d).spillOperandValue v = d.spillOperandValue v := by
  obtain ⟨hso, hic⟩ := addSpillUse_preserves env v i d
  obtain ⟨hops, _, _⟩ := addSpillUse_data env v i d
  have hval : (AddSpillUse env v i d).spillOperandValue v = d.spillOperandValue v := by
    unfold MidTierRegisterAllocationData.spillOperandValue
    rw [hso, hops]
  refine ⟨?_, ?_, hval⟩
  · unfold MidTierRegisterAllocationData.HasAllocatedSpillOperand
      VirtualRegisterData.HasSpillOperand
    rw [hso, hval]
  · unfold MidTierRegisterAllocationData.HasConstantSpillOperand
    rw [hic]

theorem spillOperand_gapMoves (env : Env) (v oid : Nat) (i : Int)
    (d : MidTierRegisterAllocationData) :
    (SpillOperand env v oid i d).gapMoves = d.gapMoves := by
  unfold SpillOperand
  dsimp only
  split
  · exact (addSpillUse_data env v i d).2.2
  · rw [(addPendingSpillOperand_data _ _ _).2.2]
    exact (addSpillUse_data env v i d).2.2

theorem spillOperandValue_congr (d d2 : MidTierRegisterAllocationData) (v : Nat)
    (hso : (d2.vregs v).spillOperand = (d.vregs v).spillOperand)
    (hops : ∀ hid, (d.vregs v).spillOperand.head = some hid →
      d2.operands hid = d.operands hid) :
    d2.spillOperandValue v = d.spillOperandValue v := by
  unfold MidTierRegisterAllocationData.spillOperandValue
  rw [hso]
  cases hh : (d.vregs v).spillOperand.head with
  | none => rfl
  | some hid => exact hops hid hh

theorem hasAllocatedSpillOperand_congr (d d2 : MidTierRegisterAllocationData)
    (v : Nat)
    (hso : (d2.vregs v).spillOperand = (d.vregs v).spillOperand)
    (hval : d2.spillOperandValue v = d.spillOperandValue v) :
    d2.HasAllocatedSpillOperand v = d.HasAllocatedSpillOperand v := by
  unfold MidTierRegisterAllocationData.HasAllocatedSpillOperand
    VirtualRegisterData.HasSpillOperand
  rw [hso, hval]

/-- In the resolved (allocated or constant spill operand) case,
`SpillOperand` overwrites only the target operand — with the spill
operand's value — and leaves the resolution state and spill operand value
unchanged. -/
theorem spillOperand_resolved (env : Env) (v oid : Nat) (i : Int)
    (d : MidTierRegisterAllocationData)
    (hres : (d.HasAllocatedSpillOperand v || d.HasConstantSpillOperand v) = true) :
    ((SpillOperand env v oid i d).HasAllocatedSpillOperand v
      || (SpillOperand env v oid i d).HasConstantSpillOperand v) = true ∧
    (SpillOperand env v oid i d).spillOperandValue v = d.spillOperandValue v ∧
    (SpillOperand env v oid i d).operands =
      Function.update d.operands oid (d.spillOperandValue v) := by
  obtain ⟨hA, hC, hV⟩ := addSpillUse_resolution env v i d
  obtain ⟨hso, hic⟩ := addSpillUse_preserves env v i d
  obtain ⟨hops, hnext, hgap⟩ := addSpillUse_data env v i d
  unfold SpillOperand
  dsimp only
  rw [if_pos (by rw [hA, hC]; exact hres)]
  have hopseq : (Function.update (AddSpillUse env v i d).operands oid
      ((AddSpillUse env v i d).spillOperandValue v)) =
      Function.update d.operands oid (d.spillOperandValue v) := by
    rw [hops, hV]
  have hval : MidTierRegisterAllocationData.spillOperandValue
      { AddSpillUse env v i d with
        operands := Function.update (AddSpillUse env v i d).operands oid
          ((AddSpillUse env v i d).spillOperandValue v) } v
      = d.spillOperandValue v := by
    refine spillOperandValue_congr d _ v (by dsimp only; rw [hso]) ?_
    intro hid hh
    dsimp only
    rw [hopseq]
    have hd : d.spillOperandValue v = d.operands hid := by
      unfold MidTierRegisterAllocationData.spillOperandValue
      rw [hh]
    by_cases he : hid = oid
    · subst he
      rw [Function.update_same, hd]
    · rw [Function.update_noteq he]
  have hAl := hasAllocatedSpillOperand_congr d
    { AddSpillUse env v i d with
      operands := Function.update (AddSpillUse env v i d).operands oid
        ((AddSpillUse env v i d).spillOperandValue v) } v
    (by dsimp only; rw [hso]) hval
  have hCo : MidTierRegisterAllocationData.HasConstantSpillOperand
      { AddSpillUse env v i d with
        operands := Function.update (AddSpillUse env v i d).operands oid
          ((AddSpillUse env v i d).spillOperandValue v) } v
      = d.HasConstantSpillOperand v := by
    unfold MidTierRegisterAllocationData.HasConstantSpillOperand
    dsimp only
    rw [hic]
  refine ⟨?_, hval, hopseq⟩
  rw [hAl, hCo]
  exact hres

theorem addPendingSpillOperand_unresolved (d : MidTierRegisterAllocationData)
    (v oid : Nat) (hop : d.operands oid = .Pending)
    (hic : (d.vregs v).isConstant = false) :
    ((AddPendingSpillOperand d v oid).HasAllocatedSpillOperand v
      || (AddPendingSpillOperand d v oid).HasConstantSpillOperand v) = false := by
  unfold AddPendingSpillOperand
    MidTierRegisterAllocationData.HasAllocatedSpillOperand
    MidTierRegisterAllocationData.HasConstantSpillOperand
    MidTierRegisterAllocationData.spillOperandValue
    VirtualRegisterData.HasSpillOperand
  dsimp only
  simp only [Function.update_same]
  rw [hic]
  cases hsp : (d.vregs v).spillOperand <;>
    simp [SpillOperandPtr.head, hop, InstructionOperand.IsAllocated]

/-- In the unresolved case, `SpillOperand` overwrites the target operand
with a pending placeholder (prepended onto the vreg's pending spill
chain), and the spill operand stays unresolved. -/
theorem spillOperand_unresolved (env : Env) (v oid : Nat) (i : Int)
    (d : MidTierRegisterAllocationData)
    (hres : (d.HasAllocatedSpillOperand v || d.HasConstantSpillOperand v) = false) :
    ((SpillOperand env v oid i d).HasAllocatedSpillOperand v
      || (SpillOperand env v oid i d).HasConstantSpillOperand v) = false ∧
    (SpillOperand env v oid i d).operands =
      Function.update d.operands oid .Pending := by
  obtain ⟨hA, hC, hV⟩ := addSpillUse_resolution env v i d
  obtain ⟨hso, hic⟩ := addSpillUse_preserves env v i d
  obtain ⟨hops, hnext, hgap⟩ := addSpillUse_data env v i d
  have hCf : d.HasConstantSpillOperand v = false :=
    (Bool.or_eq_false_iff.mp hres).2
  unfold SpillOperand
  dsimp only
  rw [if_neg (by rw [hA, hC, hres]; simp)]
  have hopseq : (Function.update (AddSpillUse env v i d).operands oid
      InstructionOperand.Pending) = Function.update d.operands oid .Pending := by
    rw [hops]
  constructor
  · exact addPendingSpillOperand_unresolved _ v oid
      (by dsimp only; rw [hopseq, Function.update_same])
      (by dsimp only; rw [hic]; exact hCf)
  · rw [(addPendingSpillOperand_data _ v oid).1]
    exact hopseq

theorem addPendingSpillOperand_head (d : MidTierRegisterAllocationData)
    (v pid : Nat) :
    ((AddPendingSpillOperand d v pid).vregs v).spillOperand.head = some pid := by
  unfold AddPendingSpillOperand
  dsimp only
  simp only [Function.update_same]
  cases (d.vregs v).spillOperand <;> rfl

theorem addPendingSpillOperand_isConstant (d : MidTierRegisterAllocationData)
    (v pid : Nat) :
    ((AddPendingSpillOperand d v pid).vregs v).isConstant = (d.vregs v).isConstant := by
  unfold AddPendingSpillOperand
  dsimp only
  simp [Function.update_same]

theorem res_false_of_head_pending (d2 : MidTierRegisterAllocationData)
    (v hid : Nat)
    (hh : (d2.vregs v).spillOperand.head = some hid)
    (hval : d2.operands hid = .Pending)
    (hic : (d2.vregs v).isConstant = false) :
    (d2.HasAllocatedSpillOperand v || d2.HasConstantSpillOperand v) = false := by
  unfold MidTierRegisterAllocationData.HasAllocatedSpillOperand
    MidTierRegisterAllocationData.HasConstantSpillOperand
    MidTierRegisterAllocationData.spillOperandValue
  rw [hh]
  dsimp only
  rw [hval, hic]
  simp [InstructionOperand.IsAllocated]

/-- `EmitGapMoveToInputFromSpillSlot` appends exactly one gap move, at
`(instr_index, END)`, whose destination operand holds the target
(allocated) operand, in both the resolved and the pending case. -/
theorem emitGapMoveToInput_effects (env : Env) (v : Nat)
    (toOperand : InstructionOperand) (i : Int)
    (d : MidTierRegisterAllocationData) :
    (EmitGapMoveToInputFromSpillSlot env v toOperand i d).gapMoves =
      d.gapMoves ++ [⟨i, .END, d.nextOperandId, d.nextOperandId + 1⟩] ∧
    (EmitGapMoveToInputFromSpillSlot env v toOperand i d).operands
      (d.nextOperandId + 1) = toOperand := by
  obtain ⟨hops, hnext, hgap⟩ := addSpillUse_data env v i d
  unfold EmitGapMoveToInputFromSpillSlot
  dsimp only
  split
  · constructor
    · simp [MidTierRegisterAllocationData.AddGapMove, hnext, hgap]
    · simp [MidTierRegisterAllocationData.AddGapMove, hnext, Function.update_same]
  · constructor
    · simp only [MidTierRegisterAllocationData.AddPendingOperandGapMove,
        MidTierRegisterAllocationData.AddGapMove, hnext, hgap]
      rw [(addPendingSpillOperand_data _ _ _).2.2]
    · simp [MidTierRegisterAllocationData.AddPendingOperandGapMove,
        MidTierRegisterAllocationData.AddGapMove,
        (addPendingSpillOperand_data _ _ _).1]
      rw [hnext, Function.update_same]

/-- `EmitGapMoveToInputFromSpillSlot` preserves the resolution state of
the vreg's spill operand (and, when resolved, its value), provided every
already-present chain head id is an already-allocated operand id. -/
theorem emitGapMoveToInput_res (env : Env) (v : Nat)
    (toOperand : InstructionOperand) (i : Int)
    (d : MidTierRegisterAllocationData)
    (hhead : ∀ hid, (d.vregs v).spillOperand.head = some hid → hid < d.nextOperandId) :
    ((d.HasAllocatedSpillOperand v || d.HasConstantSpillOperand v) = true →
      ((EmitGapMoveToInputFromSpillSlot env v toOperand i d).HasAllocatedSpillOperand v
        || (EmitGapMoveToInputFromSpillSlot env v toOperand i d).HasConstantSpillOperand v) = true ∧
      (EmitGapMoveToInputFromSpillSlot env v toOperand i d).spillOperandValue v
        = d.spillOperandValue v) ∧
    ((d.HasAllocatedSpillOperand v || d.HasConstantSpillOperand v) = false →
      ((EmitGapMoveToInputFromSpillSlot env v toOperand i d).HasAllocatedSpillOperand v
        || (EmitGapMoveToInputFromSpillSlot env v toOperand i d).HasConstantSpillOperand v) = false) := by
  obtain ⟨hA, hC, hV⟩ := addSpillUse_resolution env v i d
  obtain ⟨hso, hic⟩ := addSpillUse_preserves env v i d
  obtain ⟨hops, hnext, hgap⟩ := addSpillUse_data env v i d
  unfold EmitGapMoveToInputFromSpillSlot
  dsimp only
  constructor
  · intro hres
    rw [if_pos (by rw [hA, hC]; exact hres)]
    unfold MidTierRegisterAllocationData.AddGapMove
    dsimp only
    have hval : MidTierRegisterAllocationData.spillOperandValue
        { AddSpillUse env v i d with
          operands := Function.update
            (Function.update (AddSpillUse env v i d).operands
              (AddSpillUse env v i d).nextOperandId
              ((AddSpillUse env v i d).spillOperandValue v))
            ((AddSpillUse env v i d).nextOperandId + 1) toOperand,
          nextOperandId := (AddSpillUse env v i d).nextOperandId + 2,
          gapMoves := (AddSpillUse env v i d).gapMoves ++
            [⟨i, .END, (AddSpillUse env v i d).nextOperandId,
              (AddSpillUse env v i d).nextOperandId + 1⟩] } v
        = d.spillOperandValue v := by
      refine spillOperandValue_congr d _ v (by dsimp only; rw [hso]) ?_
      intro hid hh
      have hlt := hhead hid hh
      dsimp only
      rw [Function.update_noteq (by omega), Function.update_noteq (by omega), hops]
    refine ⟨?_, hval⟩
    have hAl := hasAllocatedSpillOperand_congr d _ v (by dsimp only; rw [hso]) hval
    have hCo : MidTierRegisterAllocationData.HasConstantSpillOperand
        { AddSpillUse env v i d with
          operands := Function.update
            (Function.update (AddSpillUse env v i d).operands
              (AddSpillUse env v i d).nextOperandId
              ((AddSpillUse env v i d).spillOperandValue v))
            ((AddSpillUse env v i d).nextOperandId + 1) toOperand,
          nextOperandId := (AddSpillUse env v i d).nextOperandId + 2,
          gapMoves := (AddSpillUse env v i d).gapMoves ++
            [⟨i, .END, (AddSpillUse env v i d).nextOperandId,
              (AddSpillUse env v i d).nextOperandId + 1⟩] } v
        = d.HasConstantSpillOperand v := by
      unfold MidTierRegisterAllocationData.HasConstantSpillOperand
      dsimp only
      rw [hic]
    rw [hAl, hCo]
    exact hres
  · intro hres
    have hCf : d.HasConstantSpillOperand v = false :=
      (Bool.or_eq_false_iff.mp hres).2
    rw [if_neg (by rw [hA, hC, hres]; simp)]
    unfold MidTierRegisterAllocationData.AddPendingOperandGapMove
      MidTierRegisterAllocationData.AddGapMove
    dsimp only
    refine res_false_of_head_pending _ v (AddSpillUse env v i d).nextOperandId
      ?_ ?_ ?_
    · exact addPendingSpillOperand_head _ v _
    · dsimp only
      rw [Function.update_noteq (by omega), (addPendingSpillOperand_data _ v _).1]
      dsimp only
      rw [Function.update_noteq (by omega), Function.update_same]
    · dsimp only
      rw [addPendingSpillOperand_isConstant]
      dsimp only
      rw [hic]
      exact hCf

/-- The fold of `SpillOperand` over a register's pending-use chain: it
adds no gap moves, rewrites exactly the chained operand ids — each to the
resolved spill operand's value, or to a pending placeholder when the
spill operand is unresolved — and leaves every other operand unchanged. -/
theorem spillOperand_fold_spec (env : Env) (v : Nat) (j : Int)
    (ids : List Nat) :
    ∀ d : MidTierRegisterAllocationData,
      (ids.foldl (fun d pid => SpillOperand env v pid j d) d).gapMoves = d.gapMoves ∧
      (∀ x, x ∉ ids →
        (ids.foldl (fun d pid => SpillOperand env v pid j d) d).operands x = d.operands x) ∧
      ((d.HasAllocatedSpillOperand v || d.HasConstantSpillOperand v) = true →
        ∀ pid ∈ ids,
          (ids.foldl (fun d pid => SpillOperand env v pid j d) d).operands pid
            = d.spillOperandValue v) ∧
      ((d.HasAllocatedSpillOperand v || d.HasConstantSpillOperand v) = false →
        ∀ pid ∈ ids,
          (ids.foldl (fun d pid => SpillOperand env v pid j d) d).operands pid
            = InstructionOperand.Pending) := by
  induction ids with
  | nil =>
    intro d
    refine ⟨rfl, fun x _ => rfl, fun _ pid h => absurd h (List.not_mem_nil pid),
      fun _ pid h => absurd h (List.not_mem_nil pid)⟩
  | cons id0 rest ih =>
    intro d
    obtain ⟨ihg, ihx, ihres, ihunres⟩ := ih (SpillOperand env v id0 j d)
    simp only [List.foldl_cons]
    by_cases hres : (d.HasAllocatedSpillOperand v || d.HasConstantSpillOperand v) = true
    · obtain ⟨h1, h2, h3⟩ := spillOperand_resolved env v id0 j d hres
      refine ⟨?_, ?_, ?_, ?_⟩
      · rw [ihg, spillOperand_gapMoves]
      · intro x hx
        have hx0 : x ≠ id0 := fun he => hx (he ▸ List.mem_cons_self id0 rest)
        have hxr : x ∉ rest := fun he => hx (List.mem_cons_of_mem id0 he)
        rw [ihx x hxr, h3, Function.update_noteq hx0]
      · intro _ pid hpid
        rcases List.mem_cons.mp hpid with rfl | hmem
        · by_cases hin : pid ∈ rest
          · rw [ihres h1 pid hin, h2]
          · rw [ihx pid hin, h3, Function.update_same]
        · rw [ihres h1 pid hmem, h2]
      · intro hcontra
        rw [hres] at hcontra
        exact absurd hcontra (by simp)
    · have hresf : (d.HasAllocatedSpillOperand v || d.HasConstantSpillOperand v) = false :=
        Bool.eq_false_iff.mpr hres
      obtain ⟨h1, h3⟩ := spillOperand_unresolved env v id0 j d hresf
      refine ⟨?_, ?_, ?_, ?_⟩
      · rw [ihg, spillOperand_gapMoves]
      · intro x hx
        have hx0 : x ≠ id0 := fun he => hx (he ▸ List.mem_cons_self id0 rest)
        have hxr : x ∉ rest := fun he => hx (List.mem_cons_of_mem id0 he)
        rw [ihx x hxr, h3, Function.update_noteq hx0]
      · intro hcontra
        rw [hresf] at hcontra
        exact absurd hcontra (by simp)
      · intro _ pid hpid
        rcases List.mem_cons.mp hpid with rfl | hmem
        · by_cases hin : pid ∈ rest
          · rw [ihunres h1 pid hin]
          · rw [ihx pid hin, h3, Function.update_same]
        · rw [ihunres h1 pid hmem]

/-- `Register::Spill` unfolded: the optional gap move, then
`SpillPendingUses`, then the register is marked unallocated. -/
theorem register_spill_eq (env : Env) (r : Register)
    (allocatedOp : InstructionOperand) (d : MidTierRegisterAllocationData)
    (v : Nat) (hv : r.virtualRegister = some v) :
    Register.Spill env r allocatedOp d =
      ({ r with pendingUses := [], virtualRegister := none },
       r.pendingUses.foldl (fun d pid => SpillOperand env v pid r.lastUseInstrIndex d)
         (if r.needsGapMoveOnSpill then
            EmitGapMoveToInputFromSpillSlot env v allocatedOp r.lastUseInstrIndex d
          else d)) := by
  unfold Register.Spill Register.SpillPendingUses
  rw [hv]

/-- C4: when a register is spilled via `Register::Spill(allocated, data)`:
a gap move reading from the vreg's spill slot (or a pending placeholder
chained to resolve to it) into the register's allocated operand is
emitted at `last_use_instr_index` (gap position END) if and only if
`needs_gap_move_on_spill` is set; every placeholder in the pending-use
chain is converted by `SpillOperand` at `last_use_instr_index` — to the
resolved spill operand's value, or to a pending spill-chain placeholder;
and the register is finally marked unallocated.  In particular, a
register holding only pending uses is discarded without generating any
gap move. -/
theorem c4_register_spill (env : Env) (d : MidTierRegisterAllocationData)
    (r : Register) (v : Nat) (allocatedOp : InstructionOperand)
    (hv : r.virtualRegister = some v)
    (hids : ∀ pid ∈ r.pendingUses, pid < d.nextOperandId)
    (hhead : ∀ hid, (d.vregs v).spillOperand.head = some hid → hid < d.nextOperandId) :
    ((Register.Spill env r allocatedOp d).2.gapMoves =
      d.gapMoves ++ (if r.needsGapMoveOnSpill then
        [⟨r.lastUseInstrIndex, GapPosition.END, d.nextOperandId, d.nextOperandId + 1⟩]
      else [])) ∧
    (r.needsGapMoveOnSpill = true →
      (Register.Spill env r allocatedOp d).2.operands (d.nextOperandId + 1) = allocatedOp) ∧
    (∀ pid ∈ r.pendingUses,
      (Register.Spill env r allocatedOp d).2.operands pid =
        (if d.HasAllocatedSpillOperand v || d.HasConstantSpillOperand v
         then d.spillOperandValue v else .Pending)) ∧
    ((Register.Spill env r allocatedOp d).1.virtualRegister = none ∧
     (Register.Spill env r allocatedOp d).1.pendingUses = []) ∧
    (r.needsGapMoveOnSpill = false →
      (Register.Spill env r allocatedOp d).2.gapMoves = d.gapMoves) := by
  rw [register_spill_eq env r allocatedOp d v hv]
  cases hN : r.needsGapMoveOnSpill with
  | true =>
    simp only [eq_self_iff_true, if_true]
    obtain ⟨hfg, hfx, hfres, hfunres⟩ := spillOperand_fold_spec env v
      r.lastUseInstrIndex r.pendingUses
      (EmitGapMoveToInputFromSpillSlot env v allocatedOp r.lastUseInstrIndex d)
    obtain ⟨hegap, hedest⟩ := emitGapMoveToInput_effects env v allocatedOp
      r.lastUseInstrIndex d
    obtain ⟨heres, heunres⟩ := emitGapMoveToInput_res env v allocatedOp
      r.lastUseInstrIndex d hhead
    refine ⟨?_, ?_, ?_, ⟨by trivial, by trivial⟩, ?_⟩
    · rw [hfg, hegap]
    · intro _
      have hnotin : d.nextOperandId + 1 ∉ r.pendingUses := fun hmem => by
        have := hids _ hmem
        omega
      rw [hfx _ hnotin, hedest]
    · intro pid hpid
      by_cases hres : (d.HasAllocatedSpillOperand v || d.HasConstantSpillOperand v) = true
      · rw [if_pos hres, hfres (heres hres).1 pid hpid, (heres hres).2]
      · have hresf := Bool.eq_false_iff.mpr hres
        rw [if_neg hres, hfunres (heunres hresf) pid hpid]
    · intro hcontr
      exact absurd hcontr (by simp)
  | false =>
    simp only [Bool.false_eq_true, if_false]
    obtain ⟨hfg, hfx, hfres, hfunres⟩ := spillOperand_fold_spec env v
      r.lastUseInstrIndex r.pendingUses d
    refine ⟨?_, ?_, ?_, ⟨by trivial, by trivial⟩, ?_⟩
    · rw [hfg]
      simp
    · intro hcontr
      exact absurd hcontr (by simp)
    · intro pid hpid
      by_cases hres : (d.HasAllocatedSpillOperand v || d.HasConstantSpillOperand v) = true
      · rw [if_pos hres, hfres hres pid hpid]
      · rw [if_neg hres, hfunres (Bool.eq_false_iff.mpr hres) pid hpid]
    · intro _
      rw [hfg]

/-- Witness for `c4_register_spill` at a concrete input. -/
theorem c4_witness :
    (let env : Env := ⟨fun _ => ⟨0, 10, [], [], none⟩, fun _ => 0,
        fun _ => {0}, [], fun _ => false⟩
     let d : MidTierRegisterAllocationData :=
       { vregs := fun _ => VirtualRegisterData.DefineAsUnallocatedOperand 0 5,
         operands := fun _ => .Pending, nextOperandId := 3, gapMoves := [],
         spilledVirtualRegisters := [] }
     let r : Register := ⟨true, 7, some 0, [2]⟩
     r.virtualRegister = some 0 ∧
     (∀ pid ∈ r.pendingUses, pid < d.nextOperandId) ∧
     (∀ hid, (d.vregs 0).spillOperand.head = some hid → hid < d.nextOperandId) ∧
     (((Register.Spill env r (.Allocated .REGISTER 1) d).2.gapMoves =
        d.gapMoves ++ (if r.needsGapMoveOnSpill then
          [⟨r.lastUseInstrIndex, GapPosition.END, d.nextOperandId, d.nextOperandId + 1⟩]
        else [])) ∧
      (r.needsGapMoveOnSpill = true →
        (Register.Spill env r (.Allocated .REGISTER 1) d).2.operands (d.nextOperandId + 1)
          = .Allocated .REGISTER 1) ∧
      (∀ pid ∈ r.pendingUses,
        (Register.Spill env r (.Allocated .REGISTER 1) d).2.operands pid =
          (if d.HasAllocatedSpillOperand 0 || d.HasConstantSpillOperand 0
           then d.spillOperandValue 0 else .Pending)) ∧
      ((Register.Spill env r (.Allocated .REGISTER 1) d).1.virtualRegister = none ∧
       (Register.Spill env r (.Allocated .REGISTER 1) d).1.pendingUses = []) ∧
      (r.needsGapMoveOnSpill = false →
        (Register.Spill env r (.Allocated .REGISTER 1) d).2.gapMoves = d.gapMoves))) :=
  ⟨rfl, by decide, fun hid h => Option.noConfusion h,
    c4_register_spill _ _ _ 0 (.Allocated .REGISTER 1) rfl (by decide)
      (fun hid h => Option.noConfusion h)⟩

theorem hasRegisterData_lt (rs : RegisterState) (reg : Nat)
    (h : rs.HasRegisterData reg = true) : reg < rs.registerData.length := by
  by_contra hge
  push_neg at hge
  unfold RegisterState.HasRegisterData at h
  rw [List.getD_eq_getElem?_getD, List.getElem?_eq_none hge] at h
  simp at h

theorem length_setRegData (rs : RegisterState) (reg : Nat) (r : Register) :
    (rs.setRegData reg r).registerData.length = rs.registerData.length := by
  unfold RegisterState.setRegData
  exact List.length_set rs.registerData reg (some r)

theorem reg_data_setRegData_self (rs : RegisterState) (reg : Nat) (r : Register)
    (hlt : reg < rs.registerData.length) :
    (rs.setRegData reg r).reg_data reg = r := by
  unfold RegisterState.reg_data RegisterState.setRegData
  rw [List.getD_eq_getElem?_getD, List.getElem?_set_eq_of_lt _ hlt]
  rfl

theorem hasRegisterData_setRegData_self (rs : RegisterState) (reg : Nat)
    (r : Register) (hlt : reg < rs.registerData.length) :
    (rs.setRegData reg r).HasRegisterData reg = true := by
  unfold RegisterState.HasRegisterData RegisterState.setRegData
  rw [List.getD_eq_getElem?_getD, List.getElem?_set_eq_of_lt _ hlt]
  rfl

theorem isAllocated_setRegData_ne (rs : RegisterState) (reg : Nat)
    (r : Register) (r2 : Nat) (hne : r2 ≠ reg) :
    (rs.setRegData reg r).IsAllocated r2 = rs.IsAllocated r2 := by
  unfold RegisterState.IsAllocated RegisterState.HasRegisterData
    RegisterState.reg_data RegisterState.setRegData
  rw [List.getD_eq_getElem?_getD, List.getD_eq_getElem?_getD,
    List.getElem?_set_ne (fun he => hne he.symm)]

theorem isAllocated_spilled_self (rs : RegisterState) (reg : Nat) (r : Register)
    (hlt : reg < rs.registerData.length) :
    ((rs.setRegData reg r).ResetDataFor reg).IsAllocated reg = false := by
  unfold RegisterState.ResetDataFor RegisterState.IsAllocated
  rw [reg_data_setRegData_self _ reg Register.Reset
    (by rw [length_setRegData]; exact hlt)]
  simp [Register.Reset, Register.is_allocated]

/-- C10 part 1: `SpillRegister(reg)` is a no-op when `reg` is not currently
allocated. -/
theorem spillRegister_of_not_allocated (env : Env)
    (a : SinglePassRegisterAllocator) (reg : Nat)
    (d : MidTierRegisterAllocationData)
    (h : ∀ rs, a.registerState = some rs → rs.IsAllocated reg = false) :
    SinglePassRegisterAllocator.SpillRegister env a reg d = (a, d) := by
  unfold SinglePassRegisterAllocator.SpillRegister
  cases hrs : a.registerState with
  | none => rfl
  | some rs =>
    dsimp only
    rw [h rs hrs]
    rfl

/-- The effect of `SpillRegister` on the allocator's register state and
bitmaps: the targeted register ends up unallocated, its bit is cleared
(when it was allocated), the other registers' allocation state and both
in-use bitmaps are unchanged. -/
theorem spillRegister_spec (env : Env) (a : SinglePassRegisterAllocator)
    (reg : Nat) (d : MidTierRegisterAllocationData) (rs : RegisterState)
    (hrs : a.registerState = some rs) :
    ∃ rs2 : RegisterState,
      (SinglePassRegisterAllocator.SpillRegister env a reg d).1.registerState = some rs2 ∧
      rs2.registerData.length = rs.registerData.length ∧
      rs2.IsAllocated reg = false ∧
      (∀ r2, r2 ≠ reg → rs2.IsAllocated r2 = rs.IsAllocated r2) ∧
      (SinglePassRegisterAllocator.SpillRegister env a reg d).1.inUseAtInstrStartBits
        = a.inUseAtInstrStartBits ∧
      (SinglePassRegisterAllocator.SpillRegister env a reg d).1.inUseAtInstrEndBits
        = a.inUseAtInstrEndBits ∧
      (SinglePassRegisterAllocator.SpillRegister env a reg d).1.allocatedRegistersBits
        = (if rs.IsAllocated reg = true then a.allocatedRegistersBits.erase reg
           else a.allocatedRegistersBits) := by
  by_cases halloc : rs.IsAllocated reg = true
  · have hlt : reg < rs.registerData.length :=
      hasRegisterData_lt rs reg (Bool.and_elim_left halloc)
    unfold SinglePassRegisterAllocator.SpillRegister
    rw [hrs]
    dsimp only
    rw [if_neg (show ¬(( !(rs.IsAllocated reg)) = true) by simp [halloc])]
    unfold RegisterState.VirtualRegisterForRegister
    rw [if_pos halloc]
    cases hvr : (rs.reg_data reg).virtualRegister with
    | none =>
      exfalso
      unfold RegisterState.IsAllocated Register.is_allocated at halloc
      rw [hvr] at halloc
      simp at halloc
    | some v =>
      dsimp only
      unfold RegisterState.Spill
      rw [register_spill_eq env (rs.reg_data reg) (a.AllocatedOperandForReg reg) d v hvr]
      dsimp only
      unfold SinglePassRegisterAllocator.FreeRegister
      dsimp only
      refine ⟨_, rfl, ?_, ?_, ?_, rfl, rfl, ?_⟩
      · rw [RegisterState.ResetDataFor, length_setRegData, length_setRegData]
      · exact isAllocated_spilled_self rs reg _ hlt
      · intro r2 hne
        rw [RegisterState.ResetDataFor, isAllocated_setRegData_ne _ _ _ _ hne,
          isAllocated_setRegData_ne _ _ _ _ hne]
      · rw [if_pos halloc]
  · have hf : rs.IsAllocated reg = false := Bool.eq_false_iff.mpr halloc
    rw [spillRegister_of_not_allocated env a reg d
      (fun rs2 hrs2 => by rw [hrs] at hrs2; cases hrs2; exact hf)]
    refine ⟨rs, hrs, rfl, hf, fun _ _ => rfl, rfl, rfl, ?_⟩
    rw [if_neg halloc]

/-- Folding `SpillRegister` over a list of registers: the register state
survives, its size is unchanged, both in-use bitmaps are unchanged, every
folded-over register ends up unallocated, other registers keep their
allocation state, and the allocated-bits set only shrinks — losing every
folded-over register — while staying consistent (every set bit is an
allocated register). -/
theorem spillAll_fold (env : Env) (l : List Nat) :
    ∀ (a : SinglePassRegisterAllocator) (d : MidTierRegisterAllocationData)
      (rs : RegisterState), a.registerState = some rs →
      (∀ r2 ∈ a.allocatedRegistersBits, rs.IsAllocated r2 = true) →
      ∃ rs2 : RegisterState,
        (l.foldl (fun ad reg =>
          SinglePassRegisterAllocator.SpillRegister env ad.1 reg ad.2) (a, d)).1.registerState
          = some rs2 ∧
        rs2.registerData.length = rs.registerData.length ∧
        (l.foldl (fun ad reg =>
          SinglePassRegisterAllocator.SpillRegister env ad.1 reg ad.2) (a, d)).1.inUseAtInstrStartBits
          = a.inUseAtInstrStartBits ∧
        (l.foldl (fun ad reg =>
          SinglePassRegisterAllocator.SpillRegister env ad.1 reg ad.2) (a, d)).1.inUseAtInstrEndBits
          = a.inUseAtInstrEndBits ∧
        (∀ r2 ∈ (l.foldl (fun ad reg =>
          SinglePassRegisterAllocator.SpillRegister env ad.1 reg ad.2) (a, d)).1.allocatedRegistersBits,
          r2 ∈ a.allocatedRegistersBits ∧ r2 ∉ l) ∧
        (∀ r2, r2 ∉ l → rs2.IsAllocated r2 = rs.IsAllocated r2) ∧
        (∀ r2 ∈ l, rs2.IsAllocated r2 = false) := by
  induction l with
  | nil =>
    intro a d rs hrs hcons
    exact ⟨rs, hrs, rfl, rfl, rfl, fun r2 h2 => ⟨h2, List.not_mem_nil r2⟩,
      fun _ _ => rfl, fun r2 h2 => absurd h2 (List.not_mem_nil r2)⟩
  | cons reg rest ih =>
    intro a d rs hrs hcons
    obtain ⟨rs1, h1rs, h1len, h1self, h1ne, h1start, h1end, h1bits⟩ :=
      spillRegister_spec env a reg d rs hrs
    have hbits1 : ∀ r2 ∈ (SinglePassRegisterAllocator.SpillRegister env a reg d).1.allocatedRegistersBits,
        r2 ∈ a.allocatedRegistersBits ∧ r2 ≠ reg := by
      intro r2 h2
      rw [h1bits] at h2
      by_cases halloc : rs.IsAllocated reg = true
      · rw [if_pos halloc] at h2
        exact ⟨Finset.mem_of_mem_erase h2, Finset.ne_of_mem_erase h2⟩
      · rw [if_neg halloc] at h2
        refine ⟨h2, fun he => halloc ?_⟩
        subst he
        exact hcons r2 h2
    have hcons1 : ∀ r2 ∈ (SinglePassRegisterAllocator.SpillRegister env a reg d).1.allocatedRegistersBits,
        rs1.IsAllocated r2 = true := by
      intro r2 h2
      obtain ⟨hmem, hne⟩ := hbits1 r2 h2
      rw [h1ne r2 hne]
      exact hcons r2 hmem
    obtain ⟨rs2, h2rs, h2len, h2start, h2end, h2bits, h2pres, h2in⟩ :=
      ih (SinglePassRegisterAllocator.SpillRegister env a reg d).1
        (SinglePassRegisterAllocator.SpillRegister env a reg d).2 rs1 h1rs hcons1
    simp only [List.foldl_cons]
    refine ⟨rs2, h2rs, by rw [h2len, h1len], by rw [h2start, h1start],
      by rw [h2end, h1end], ?_, ?_, ?_⟩
    · intro r2 h2
      obtain ⟨hmem1, hnr⟩ := h2bits r2 h2
      obtain ⟨hmem0, hne⟩ := hbits1 r2 hmem1
      refine ⟨hmem0, ?_⟩
      intro hin
      rcases List.mem_cons.mp hin with he | hin2
      · exact hne he
      · exact hnr hin2
    · intro r2 h2
      have hne : r2 ≠ reg := fun he => h2 (he ▸ List.mem_cons_self reg rest)
      have hnr : r2 ∉ rest := fun he => h2 (List.mem_cons_of_mem reg he)
      rw [h2pres r2 hnr, h1ne r2 hne]
    · intro r2 h2
      rcases List.mem_cons.mp h2 with he | hin2
      · subst he
        by_cases hin : r2 ∈ rest
        · exact h2in r2 hin
        · rw [h2pres r2 hin]
          exact h1self
      · exact h2in r2 hin2

/-- Light version of the fold lemma, without the bitmap-consistency
hypothesis: after folding `SpillRegister` over `l` the register state
survives with the same size, every folded-over register is unallocated,
and untouched registers keep their allocation state. -/
theorem spillAll_fold_state (env : Env) (l : List Nat) :
    ∀ (a : SinglePassRegisterAllocator) (d : MidTierRegisterAllocationData)
      (rs : RegisterState), a.registerState = some rs →
      ∃ rs2 : RegisterState,
        (l.foldl (fun ad reg =>
          SinglePassRegisterAllocator.SpillRegister env ad.1 reg ad.2) (a, d)).1.registerState
          = some rs2 ∧
        rs2.registerData.length = rs.registerData.length ∧
        (∀ r2, r2 ∉ l → rs2.IsAllocated r2 = rs.IsAllocated r2) ∧
        (∀ r2 ∈ l, rs2.IsAllocated r2 = false) := by
  induction l with
  | nil =>
    intro a d rs hrs
    exact ⟨rs, hrs, rfl, fun _ _ => rfl, fun r2 h2 => absurd h2 (List.not_mem_nil r2)⟩
  | cons reg rest ih =>
    intro a d rs hrs
    obtain ⟨rs1, h1rs, h1len, h1self, h1ne, _, _, _⟩ :=
      spillRegister_spec env a reg d rs hrs
    obtain ⟨rs2, h2rs, h2len, h2pres, h2in⟩ :=
      ih (SinglePassRegisterAllocator.SpillRegister env a reg d).1
        (SinglePassRegisterAllocator.SpillRegister env a reg d).2 rs1 h1rs
    simp only [List.foldl_cons]
    refine ⟨rs2, h2rs, by rw [h2len, h1len], ?_, ?_⟩
    · intro r2 h2
      have hne : r2 ≠ reg := fun he => h2 (he ▸ List.mem_cons_self reg rest)
      have hnr : r2 ∉ rest := fun he => h2 (List.mem_cons_of_mem reg he)
      rw [h2pres r2 hnr, h1ne r2 hne]
    · intro r2 h2
      rcases List.mem_cons.mp h2 with he | hin2
      · subst he
        by_cases hin : r2 ∈ rest
        · exact h2in r2 hin
        · rw [h2pres r2 hin]
          exact h1self
      · exact h2in r2 hin2

/-- Folding `SpillRegister` over a list of registers none of which is
allocated does nothing. -/
theorem spillAll_fold_noop (env : Env) (l : List Nat) :
    ∀ (a : SinglePassRegisterAllocator) (d : MidTierRegisterAllocationData)
      (rs : RegisterState), a.registerState = some rs →
      (∀ reg ∈ l, rs.IsAllocated reg = false) →
      l.foldl (fun ad reg =>
        SinglePassRegisterAllocator.SpillRegister env ad.1 reg ad.2) (a, d) = (a, d) := by
  induction l with
  | nil => intro a d rs hrs hall; rfl
  | cons reg rest ih =>
    intro a d rs hrs hall
    rw [List.foldl_cons, spillRegister_of_not_allocated env a reg d
      (fun rs2 hrs2 => by
        rw [hrs] at hrs2
        cases hrs2
        exact hall reg (List.mem_cons_self reg rest))]
    exact ih a d rs hrs (fun r2 h2 => hall r2 (List.mem_cons_of_mem reg h2))

/-- C9: once a block is finished — `SpillAllRegisters` followed by
`EndBlock` — all three per-allocator bitmaps are empty (in particular
`allocated_registers_bits`) and the `RegisterState` is discarded
(`register_state` reset to `none`), so no per-block allocation state
survives into the next block.  The hypotheses say the block reached its
end with both in-use bitmaps already empty (the code asserts exactly this
at `EndBlock`) and that `allocated_registers_bits` is consistent with the
register state: every set bit denotes an allocated register within the
register-data array. -/
theorem c9_end_block (env : Env) (a : SinglePassRegisterAllocator)
    (d : MidTierRegisterAllocationData)
    (hstart : a.inUseAtInstrStartBits = ∅)
    (hend : a.inUseAtInstrEndBits = ∅)
    (hcons : ∀ reg ∈ a.allocatedRegistersBits, ∃ rs, a.registerState = some rs ∧
      rs.IsAllocated reg = true ∧ reg < rs.registerData.length) :
    ((SinglePassRegisterAllocator.SpillAllRegisters env a d).1.EndBlock).inUseAtInstrStartBits = ∅ ∧
    ((SinglePassRegisterAllocator.SpillAllRegisters env a d).1.EndBlock).inUseAtInstrEndBits = ∅ ∧
    ((SinglePassRegisterAllocator.SpillAllRegisters env a d).1.EndBlock).allocatedRegistersBits = ∅ ∧
    ((SinglePassRegisterAllocator.SpillAllRegisters env a d).1.EndBlock).registerState = none := by
  have hmain :
      (SinglePassRegisterAllocator.SpillAllRegisters env a d).1.inUseAtInstrStartBits
        = a.inUseAtInstrStartBits ∧
      (SinglePassRegisterAllocator.SpillAllRegisters env a d).1.inUseAtInstrEndBits
        = a.inUseAtInstrEndBits ∧
      (SinglePassRegisterAllocator.SpillAllRegisters env a d).1.allocatedRegistersBits = ∅ := by
    unfold SinglePassRegisterAllocator.SpillAllRegisters
    cases hrs : a.registerState with
    | none =>
      refine ⟨rfl, rfl, ?_⟩
      rw [Finset.eq_empty_iff_forall_not_mem]
      intro r2 h2
      obtain ⟨rs, hrs2, _⟩ := hcons r2 h2
      rw [hrs] at hrs2
      cases hrs2
    | some rs =>
      have hco : ∀ r2 ∈ a.allocatedRegistersBits, rs.IsAllocated r2 = true := by
        intro r2 h2
        obtain ⟨rs2, hrs2, hia, _⟩ := hcons r2 h2
        rw [hrs] at hrs2
        cases hrs2
        exact hia
      obtain ⟨rs2, _, _, hs, he, hbits, _, _⟩ :=
        spillAll_fold env (List.range rs.registerData.length) a d rs hrs hco
      refine ⟨hs, he, ?_⟩
      rw [Finset.eq_empty_iff_forall_not_mem]
      intro r2 h2
      obtain ⟨hmem, hnr⟩ := hbits r2 h2
      obtain ⟨rs3, hrs3, _, hlt⟩ := hcons r2 hmem
      rw [hrs] at hrs3
      cases hrs3
      exact hnr (List.mem_range.mpr hlt)
  obtain ⟨h1, h2, h3⟩ := hmain
  refine ⟨?_, ?_, ?_, rfl⟩
  · show (SinglePassRegisterAllocator.SpillAllRegisters env a d).1.inUseAtInstrStartBits = ∅
    rw [h1, hstart]
  · show (SinglePassRegisterAllocator.SpillAllRegisters env a d).1.inUseAtInstrEndBits = ∅
    rw [h2, hend]
  · show (SinglePassRegisterAllocator.SpillAllRegisters env a d).1.allocatedRegistersBits = ∅
    exact h3

/-- Witness for `c9_end_block` at a concrete input: one register, holding
vreg 0, is allocated when the block ends. -/
theorem c9_witness :
    (let env : Env := ⟨fun _ => ⟨0, 10, [], [], none⟩, fun _ => 0,
        fun _ => {0}, [], fun _ => false⟩
     let a : SinglePassRegisterAllocator :=
       ⟨fun _ => none, some ⟨[some ⟨true, 3, some 0, []⟩]⟩, fun i => i, ∅, ∅, {0}⟩
     let d : MidTierRegisterAllocationData :=
       { vregs := fun _ => VirtualRegisterData.DefineAsUnallocatedOperand 0 2,
         operands := fun _ => .Pending, nextOperandId := 1, gapMoves := [],
         spilledVirtualRegisters := [] }
     a.inUseAtInstrStartBits = ∅ ∧ a.inUseAtInstrEndBits = ∅ ∧
     (∀ reg ∈ a.allocatedRegistersBits, ∃ rs, a.registerState = some rs ∧
        rs.IsAllocated reg = true ∧ reg < rs.registerData.length) ∧
     (((SinglePassRegisterAllocator.SpillAllRegisters env a d).1.EndBlock).inUseAtInstrStartBits = ∅ ∧
      ((SinglePassRegisterAllocator.SpillAllRegisters env a d).1.EndBlock).inUseAtInstrEndBits = ∅ ∧
      ((SinglePassRegisterAllocator.SpillAllRegisters env a d).1.EndBlock).allocatedRegistersBits = ∅ ∧
      ((SinglePassRegisterAllocator.SpillAllRegisters env a d).1.EndBlock).registerState = none)) :=
  ⟨rfl, rfl,
   fun reg hreg => by
     cases Finset.mem_singleton.mp hreg
     exact ⟨⟨[some ⟨true, 3, some 0, []⟩]⟩, rfl, rfl, by decide⟩,
   c9_end_block _ _ _ rfl rfl
     (fun reg hreg => by
       cases Finset.mem_singleton.mp hreg
       exact ⟨⟨[some ⟨true, 3, some 0, []⟩]⟩, rfl, rfl, by decide⟩)⟩

/-- C10: `SpillRegister(reg)` is a no-op when `reg` is not currently
allocated to any virtual register, and consequently `SpillAllRegisters`
is idempotent: a second invocation leaves the allocator, the instruction
operands and all virtual-register data exactly as the first one did. -/
theorem c10_spill_noop_idempotent (env : Env) (a : SinglePassRegisterAllocator)
    (reg : Nat) (d : MidTierRegisterAllocationData)
    (hfree : ∀ rs, a.registerState = some rs → rs.IsAllocated reg = false) :
    SinglePassRegisterAllocator.SpillRegister env a reg d = (a, d) ∧
    SinglePassRegisterAllocator.SpillAllRegisters env
        (SinglePassRegisterAllocator.SpillAllRegisters env a d).1
        (SinglePassRegisterAllocator.SpillAllRegisters env a d).2
      = SinglePassRegisterAllocator.SpillAllRegisters env a d := by
  refine ⟨spillRegister_of_not_allocated env a reg d hfree, ?_⟩
  cases hrs : a.registerState with
  | none =>
    have h1 : SinglePassRegisterAllocator.SpillAllRegisters env a d = (a, d) := by
      unfold SinglePassRegisterAllocator.SpillAllRegisters
      rw [hrs]
    rw [h1]
    exact h1
  | some rs =>
    have h1 : SinglePassRegisterAllocator.SpillAllRegisters env a d =
        (List.range rs.registerData.length).foldl
          (fun ad reg2 =>
            SinglePassRegisterAllocator.SpillRegister env ad.1 reg2 ad.2) (a, d) := by
      unfold SinglePassRegisterAllocator.SpillAllRegisters
      rw [hrs]
    obtain ⟨rs2, h2rs, h2len, h2pres, h2in⟩ :=
      spillAll_fold_state env (List.range rs.registerData.length) a d rs hrs
    rw [h1]
    unfold SinglePassRegisterAllocator.SpillAllRegisters
    rw [h2rs]
    dsimp only
    rw [h2len]
    rw [spillAll_fold_noop env (List.range rs.registerData.length) _ _ rs2 h2rs h2in]

/-- Witness for `c10_spill_noop_idempotent` at a concrete input:
register 1 is unallocated (so spilling it is a no-op) while register 0
holds vreg 7 and is genuinely spilled by `SpillAllRegisters`. -/
theorem c10_witness :
    (let env : Env := ⟨fun _ => ⟨0, 10, [], [], none⟩, fun _ => 0,
        fun _ => {0}, [], fun _ => false⟩
     let a : SinglePassRegisterAllocator :=
       ⟨fun _ => none, some ⟨[some ⟨true, 3, some 7, []⟩, some Register.Reset]⟩,
        fun i => i, ∅, ∅, {0}⟩
     let d : MidTierRegisterAllocationData :=
       { vregs := fun _ => VirtualRegisterData.DefineAsUnallocatedOperand 7 2,
         operands := fun _ => .Pending, nextOperandId := 1, gapMoves := [],
         spilledVirtualRegisters := [] }
     (∀ rs, a.registerState = some rs → rs.IsAllocated 1 = false) ∧
     (SinglePassRegisterAllocator.SpillRegister env a 1 d = (a, d) ∧
      SinglePassRegisterAllocator.SpillAllRegisters env
          (SinglePassRegisterAllocator.SpillAllRegisters env a d).1
          (SinglePassRegisterAllocator.SpillAllRegisters env a d).2
        = SinglePassRegisterAllocator.SpillAllRegisters env a d)) :=
  ⟨fun rs h => by cases Option.some.inj h; rfl,
   c10_spill_noop_idempotent _ _ 1 _ (fun rs h => by cases Option.some.inj h; rfl)⟩

theorem takeFirstOfWidth_none (w : Nat) :
    ∀ (l rest : List SpillSlot), takeFirstOfWidth w l = (none, rest) → rest = l := by
  intro l
  induction l with
  | nil =>
    intro rest h
    rw [show takeFirstOfWidth w ([] : List SpillSlot) = (none, []) from rfl] at h
    injection h with h1 h2
    exact h2.symm
  | cons s t ih =>
    intro rest h
    unfold takeFirstOfWidth at h
    by_cases hw : s.byteWidth = w
    · rw [if_pos hw] at h
      injection h with h1 h2
      exact absurd h1 (by simp)
    · rw [if_neg hw] at h
      cases ht : takeFirstOfWidth w t with
      | mk found rest2 =>
        rw [ht] at h
        dsimp only at h
        injection h with h1 h2
        subst h1
        rw [← h2, ih rest2 ht]

theorem takeFirstOfWidth_some (w : Nat) :
    ∀ (l rest : List SpillSlot) (f : SpillSlot),
      takeFirstOfWidth w l = (some f, rest) →
      f.byteWidth = w ∧ l.Perm (f :: rest) := by
  intro l
  induction l with
  | nil =>
    intro rest f h
    rw [show takeFirstOfWidth w ([] : List SpillSlot) = (none, []) from rfl] at h
    injection h with h1 h2
    exact absurd h1 (by simp)
  | cons s t ih =>
    intro rest f h
    unfold takeFirstOfWidth at h
    by_cases hw : s.byteWidth = w
    · rw [if_pos hw] at h
      injection h with h1 h2
      injection h1 with h1
      subst h1
      subst h2
      exact ⟨hw, List.Perm.refl _⟩
    · rw [if_neg hw] at h
      cases ht : takeFirstOfWidth w t with
      | mk found rest2 =>
        rw [ht] at h
        dsimp only at h
        injection h with h1 h2
        subst h1
        obtain ⟨hfw, hperm⟩ := ih rest2 f ht
        refine ⟨hfw, ?_⟩
        rw [← h2]
        exact (hperm.cons s).trans (List.Perm.swap f s rest2)

/-- `AdvanceTo` moves slots between the allocated and free lists but keeps
their multiset unchanged. -/
theorem advanceTo_union_perm (st : MidTierSpillSlotAllocator) (t : Int) :
    ((st.AdvanceTo t).allocatedSlots ++ (st.AdvanceTo t).freeSlots).Perm
      (st.allocatedSlots ++ st.freeSlots) := by
  simp only [MidTierSpillSlotAllocator.AdvanceTo]
  rw [← List.append_assoc]
  refine List.Perm.append_right st.freeSlots ?_
  have hq : st.allocatedSlots.filter (fun s => decide (s.last_use < t))
      = st.allocatedSlots.filter (fun s => !decide (t ≤ s.last_use)) := by
    refine List.filter_congr ?_
    intro s hs
    by_cases hc : t ≤ s.last_use <;> simp [hc, not_le, lt_of_not_le]
  rw [hq]
  exact List.filter_append_perm (fun s : SpillSlot => decide (t ≤ s.last_use)) st.allocatedSlots

/-- All slots on the free list after `AdvanceTo t` expired strictly before
`t` (provided the sweep position only moves forward). -/
theorem advanceTo_free_lt (st : MidTierSpillSlotAllocator) (t : Int)
    (hfree : ∀ s ∈ st.freeSlots, s.last_use < st.position) (hpos : st.position ≤ t) :
    ∀ s ∈ (st.AdvanceTo t).freeSlots, s.last_use < t := by
  intro s hs
  simp only [MidTierSpillSlotAllocator.AdvanceTo] at hs
  rcases List.mem_append.mp hs with h1 | h2
  · simp only [List.mem_filter, decide_eq_true_eq] at h1
    exact h1.2
  · exact lt_of_lt_of_le (hfree s h2) hpos

theorem allocate_found (st : MidTierSpillSlotAllocator) (e : SpillEntry)
    (f : SpillSlot) (rest2 : List SpillSlot)
    (htake : takeFirstOfWidth e.byteWidth
      (st.AdvanceTo e.liveRange.start).freeSlots = (some f, rest2)) :
    st.Allocate e =
      ({ st.AdvanceTo e.liveRange.start with
          allocatedSlots :=
            f.AddRange e.liveRange :: (st.AdvanceTo e.liveRange.start).allocatedSlots,
          freeSlots := rest2 },
       f.stackSlot) := by
  unfold MidTierSpillSlotAllocator.Allocate MidTierSpillSlotAllocator.GetFreeSpillSlot
  dsimp only
  rw [htake]
  dsimp only
  rfl

theorem allocate_none (st : MidTierSpillSlotAllocator) (e : SpillEntry)
    (rest2 : List SpillSlot)
    (htake : takeFirstOfWidth e.byteWidth
      (st.AdvanceTo e.liveRange.start).freeSlots = (none, rest2)) :
    st.Allocate e =
      ({ st.AdvanceTo e.liveRange.start with
          allocatedSlots :=
            (SpillSlot.AddRange ⟨st.nextStackSlot, e.byteWidth, Range.empty⟩ e.liveRange)
              :: (st.AdvanceTo e.liveRange.start).allocatedSlots,
          freeSlots := rest2,
          nextStackSlot := st.nextStackSlot + 1 },
       st.nextStackSlot) := by
  unfold MidTierSpillSlotAllocator.Allocate MidTierSpillSlotAllocator.GetFreeSpillSlot
  dsimp only
  rw [htake]
  dsimp only
  rfl

theorem allocateSweep_cons (st st2 : MidTierSpillSlotAllocator) (s : Nat)
    (e : SpillEntry) (rest : List SpillEntry) (h : st.Allocate e = (st2, s)) :
    allocateSweep st (e :: rest) = (e, s) :: allocateSweep st2 rest := by
  simp only [allocateSweep]
  rw [h]

/-- The sweep invariant: starting from a state whose free slots all
expired before the current position, whose slot numbers are below the
fresh counter and pairwise distinct, and sweeping entries whose starts
are at or after the position in nondecreasing order, (1) any slot record
present at the outset is only ever reassigned to an entry starting
strictly after the record's range ends, and (2) any two swept entries
assigned the same stack slot have the earlier range end strictly before
the later range start. -/
theorem allocateSweep_main (l : List SpillEntry) :
    ∀ st : MidTierSpillSlotAllocator,
      (∀ s ∈ st.freeSlots, s.last_use < st.position) →
      (∀ s ∈ st.allocatedSlots ++ st.freeSlots, s.stackSlot < st.nextStackSlot) →
      ((st.allocatedSlots ++ st.freeSlots).map SpillSlot.stackSlot).Nodup →
      (∀ e ∈ l, st.position ≤ e.liveRange.start) →
      l.Pairwise (fun a b => a.liveRange.start ≤ b.liveRange.start) →
      (∀ slt ∈ st.allocatedSlots ++ st.freeSlots,
        ∀ p ∈ allocateSweep st l, p.2 = slt.stackSlot →
          slt.range.end_ < p.1.liveRange.start) ∧
      (allocateSweep st l).Pairwise
        (fun p q => p.2 = q.2 → p.1.liveRange.end_ < q.1.liveRange.start) := by
  induction l with
  | nil =>
    intro st hfree hbound hnodup hpos hsorted
    exact ⟨fun slt hslt p hp => absurd hp (List.not_mem_nil p), List.Pairwise.nil⟩
  | cons e rest ih =>
    intro st hfree hbound hnodup hpos hsorted
    rcases List.pairwise_cons.mp hsorted with ⟨hhead, htail⟩
    have hpos_e : st.position ≤ e.liveRange.start := hpos e (List.mem_cons_self e rest)
    have hAperm := advanceTo_union_perm st e.liveRange.start
    have hAfree := advanceTo_free_lt st e.liveRange.start hfree hpos_e
    have hAbound : ∀ s ∈ (st.AdvanceTo e.liveRange.start).allocatedSlots
        ++ (st.AdvanceTo e.liveRange.start).freeSlots,
        s.stackSlot < st.nextStackSlot := by
      intro s hs
      exact hbound s (hAperm.mem_iff.mp hs)
    have hAnodup : (((st.AdvanceTo e.liveRange.start).allocatedSlots
        ++ (st.AdvanceTo e.liveRange.start).freeSlots).map SpillSlot.stackSlot).Nodup :=
      ((hAperm.map SpillSlot.stackSlot).nodup_iff).mpr hnodup
    cases htake : takeFirstOfWidth e.byteWidth (st.AdvanceTo e.liveRange.start).freeSlots with
    | mk found rest2 =>
      cases found with
      | some f =>
        obtain ⟨hfw, hfperm⟩ := takeFirstOfWidth_some e.byteWidth _ rest2 f htake
        have hA := allocate_found st e f rest2 htake
        have hfmem : f ∈ (st.AdvanceTo e.liveRange.start).freeSlots :=
          hfperm.mem_iff.mpr (List.mem_cons_self f rest2)
        have hfend : f.range.end_ < e.liveRange.start := hAfree f hfmem
        obtain ⟨P1, P2⟩ := ih
          { st.AdvanceTo e.liveRange.start with
              allocatedSlots :=
                f.AddRange e.liveRange :: (st.AdvanceTo e.liveRange.start).allocatedSlots,
              freeSlots := rest2 }
          (by
            intro s hs
            exact hAfree s (hfperm.mem_iff.mpr (List.mem_cons_of_mem f hs)))
          (by
            intro s hs
            simp only [List.cons_append] at hs
            rcases List.mem_cons.mp hs with he | hs2
            · subst he
              show f.stackSlot < st.nextStackSlot
              exact hAbound f (List.mem_append_right _ hfmem)
            · rcases List.mem_append.mp hs2 with h1 | h2
              · exact hAbound s (List.mem_append_left _ h1)
              · exact hAbound s (List.mem_append_right _
                  (hfperm.mem_iff.mpr (List.mem_cons_of_mem f h2)))
          )
          (by
            have h1 : ((f :: ((st.AdvanceTo e.liveRange.start).allocatedSlots
                ++ rest2)).map SpillSlot.stackSlot).Nodup := by
              refine (((List.Perm.map SpillSlot.stackSlot ?_).nodup_iff).mp hAnodup)
              exact (List.Perm.append_left _ hfperm).trans List.perm_middle
            exact h1
          )
          (by
            intro e2 he2
            exact hhead e2 he2)
          htail
        rw [allocateSweep_cons st _ f.stackSlot e rest hA]
        constructor
        · intro slt hslt p hp hnum
          have hsltA : slt ∈ (st.AdvanceTo e.liveRange.start).allocatedSlots
              ++ (st.AdvanceTo e.liveRange.start).freeSlots := hAperm.mem_iff.mpr hslt
          rcases List.mem_cons.mp hp with hphead | hptail
          · subst hphead
            have hsltf : slt = f :=
              List.inj_on_of_nodup_map hAnodup hsltA
                (List.mem_append_right _ hfmem) hnum.symm
            rw [hsltf]
            exact hfend
          · by_cases hef : slt = f
            · subst hef
              have hlt := P1 (slt.AddRange e.liveRange)
                (List.mem_append_left _ (List.mem_cons_self _ _)) p hptail hnum
              exact lt_of_le_of_lt (le_max_left _ _) hlt
            · have hmem2 : slt ∈ ((f.AddRange e.liveRange
                  :: (st.AdvanceTo e.liveRange.start).allocatedSlots) ++ rest2) := by
                rcases List.mem_append.mp hsltA with h1 | h2
                · exact List.mem_append_left _ (List.mem_cons_of_mem _ h1)
                · rcases List.mem_cons.mp (hfperm.mem_iff.mp h2) with he | h3
                  · exact absurd he hef
                  · exact List.mem_append_right _ h3
              exact P1 slt hmem2 p hptail hnum
        · refine List.Pairwise.cons ?_ P2
          intro q hq hnum
          have hlt := P1 (f.AddRange e.liveRange)
            (List.mem_append_left _ (List.mem_cons_self _ _)) q hq hnum.symm
          exact lt_of_le_of_lt (le_max_right _ _) hlt
      | none =>
        have hrest2 := takeFirstOfWidth_none e.byteWidth _ rest2 htake
        subst hrest2
        have hA := allocate_none st e _ htake
        obtain ⟨P1, P2⟩ := ih
          { st.AdvanceTo e.liveRange.start with
              allocatedSlots := SpillSlot.AddRange ⟨st.nextStackSlot, e.byteWidth, Range.empty⟩
                e.liveRange :: (st.AdvanceTo e.liveRange.start).allocatedSlots,
              freeSlots := (st.AdvanceTo e.liveRange.start).freeSlots,
              nextStackSlot := st.nextStackSlot + 1 }
          (by
            intro s hs
            exact hAfree s hs)
          (by
            intro s hs
            simp only [List.cons_append] at hs
            rcases List.mem_cons.mp hs with he | hs2
            · subst he
              show st.nextStackSlot < st.nextStackSlot + 1
              exact Nat.lt_succ_self _
            · exact Nat.lt_succ_of_lt (hAbound s hs2)
          )
          (by
            show (((SpillSlot.AddRange ⟨st.nextStackSlot, e.byteWidth, Range.empty⟩ e.liveRange
              :: (st.AdvanceTo e.liveRange.start).allocatedSlots)
              ++ (st.AdvanceTo e.liveRange.start).freeSlots).map SpillSlot.stackSlot).Nodup
            simp only [List.cons_append, List.map_cons]
            refine List.Nodup.cons ?_ hAnodup
            intro hmem
            obtain ⟨s, hsmem, hseq⟩ := List.mem_map.mp hmem
            have hseq2 : s.stackSlot = st.nextStackSlot := hseq
            exact absurd (hAbound s hsmem) (by rw [hseq2]; exact lt_irrefl _)
          )
          (by
            intro e2 he2
            exact hhead e2 he2)
          htail
        rw [allocateSweep_cons st _ st.nextStackSlot e rest hA]
        constructor
        · intro slt hslt p hp hnum
          have hsltA : slt ∈ (st.AdvanceTo e.liveRange.start).allocatedSlots
              ++ (st.AdvanceTo e.liveRange.start).freeSlots := hAperm.mem_iff.mpr hslt
          rcases List.mem_cons.mp hp with hphead | hptail
          · subst hphead
            exact absurd (hAbound slt hsltA) (by rw [← hnum]; exact lt_irrefl _)
          · refine P1 slt ?_ p hptail hnum
            simp only [List.cons_append]
            exact List.mem_cons_of_mem _ hsltA
        · refine List.Pairwise.cons ?_ P2
          intro q hq hnum
          have hlt := P1 (SpillSlot.AddRange ⟨st.nextStackSlot, e.byteWidth, Range.empty⟩
              e.liveRange)
            (List.mem_append_left _ (List.mem_cons_self _ _)) q hq hnum.symm
          exact lt_of_le_of_lt (le_max_right _ _) hlt

theorem sortSpillEntries_sorted (entries : List SpillEntry) :
    (sortSpillEntries entries).Pairwise
      (fun a b => a.liveRange.start ≤ b.liveRange.start) := by
  haveI : IsTotal SpillEntry (fun a b => a.liveRange.start ≤ b.liveRange.start) :=
    ⟨fun a b => Int.le_total _ _⟩
  haveI : IsTrans SpillEntry (fun a b => a.liveRange.start ≤ b.liveRange.start) :=
    ⟨fun a b c hab hbc => le_trans hab hbc⟩
  exact List.sorted_insertionSort _ entries

/-- C3: no two spilled virtual registers share a spill slot at any
instruction index.  `AllocateSpillSlotsPairs` sorts the spilled vregs
ascending by live-range start and sweeps, retiring a slot to the free
list only once its `last_use` is strictly before the current spill's
start and reusing a free slot only of the exact same byte width; as a
result, whenever two distinct sweep entries are resolved to the same
stack slot, their spill live ranges contain no common instruction index.
(The hypothesis `0 ≤ start` mirrors the code's invariant that instruction
indices are nonnegative, asserted by `AdvanceTo` against the initial
position 0.) -/
theorem c3_spill_slots_disjoint (entries : List SpillEntry)
    (hstarts : ∀ e ∈ entries, 0 ≤ e.liveRange.start)
    (i j : Nat) (hi : i < (AllocateSpillSlotsPairs entries).length)
    (hj : j < (AllocateSpillSlotsPairs entries).length) (hij : i ≠ j)
    (hsame : ((AllocateSpillSlotsPairs entries).get ⟨i, hi⟩).2
      = ((AllocateSpillSlotsPairs entries).get ⟨j, hj⟩).2) (x : Int) :
    ¬(((AllocateSpillSlotsPairs entries).get ⟨i, hi⟩).1.liveRange.Contains x = true ∧
      ((AllocateSpillSlotsPairs entries).get ⟨j, hj⟩).1.liveRange.Contains x = true) := by
  have hsorted := sortSpillEntries_sorted entries
  have hpos : ∀ e ∈ sortSpillEntries entries,
      MidTierSpillSlotAllocator.init.position ≤ e.liveRange.start := by
    intro e he
    unfold sortSpillEntries at he
    exact hstarts e ((List.perm_insertionSort
      (fun a b => a.liveRange.start ≤ b.liveRange.start) entries).mem_iff.mp he)
  obtain ⟨P1, P2⟩ := allocateSweep_main (sortSpillEntries entries)
    MidTierSpillSlotAllocator.init
    (fun s hs => absurd hs (List.not_mem_nil s))
    (fun s hs => absurd hs (List.not_mem_nil s))
    List.nodup_nil
    hpos hsorted
  intro hx
  obtain ⟨hx1, hx2⟩ := hx
  simp only [Range.Contains, Bool.and_eq_true, decide_eq_true_eq] at hx1 hx2
  obtain ⟨ha1, ha2⟩ := hx1
  obtain ⟨hb1, hb2⟩ := hx2
  rcases Nat.lt_trichotomy i j with hlt | heq | hgt
  · have hR := List.pairwise_iff_get.mp P2 ⟨i, hi⟩ ⟨j, hj⟩ hlt hsame
    have hR2 : ((AllocateSpillSlotsPairs entries).get ⟨i, hi⟩).1.liveRange.end_
        < ((AllocateSpillSlotsPairs entries).get ⟨j, hj⟩).1.liveRange.start := hR
    omega
  · exact hij heq
  · have hR := List.pairwise_iff_get.mp P2 ⟨j, hj⟩ ⟨i, hi⟩ hgt hsame.symm
    have hR2 : ((AllocateSpillSlotsPairs entries).get ⟨j, hj⟩).1.liveRange.end_
        < ((AllocateSpillSlotsPairs entries).get ⟨i, hi⟩).1.liveRange.start := hR
    omega

/-- Witness for `c3_spill_slots_disjoint` at a concrete input: two vregs
with live ranges `[0, 2]` and `[5, 9]` are both assigned stack slot 0
(the slot is retired and reused), and no instruction index lies in both
ranges. -/
theorem c3_witness :
    (∀ e ∈ ([⟨0, 4, ⟨0, 2⟩⟩, ⟨1, 4, ⟨5, 9⟩⟩] : List SpillEntry),
      0 ≤ e.liveRange.start) ∧
    ((AllocateSpillSlotsPairs [⟨0, 4, ⟨0, 2⟩⟩, ⟨1, 4, ⟨5, 9⟩⟩]).get
        ⟨0, by decide⟩).2
      = ((AllocateSpillSlotsPairs [⟨0, 4, ⟨0, 2⟩⟩, ⟨1, 4, ⟨5, 9⟩⟩]).get
        ⟨1, by decide⟩).2 ∧
    ¬(((AllocateSpillSlotsPairs [⟨0, 4, ⟨0, 2⟩⟩, ⟨1, 4, ⟨5, 9⟩⟩]).get
        ⟨0, by decide⟩).1.liveRange.Contains 1 = true ∧
      ((AllocateSpillSlotsPairs [⟨0, 4, ⟨0, 2⟩⟩, ⟨1, 4, ⟨5, 9⟩⟩]).get
        ⟨1, by decide⟩).1.liveRange.Contains 1 = true) :=
  ⟨by decide, by decide,
   c3_spill_slots_disjoint [⟨0, 4, ⟨0, 2⟩⟩, ⟨1, 4, ⟨5, 9⟩⟩] (by decide) 0 1
     (by decide) (by decide) (by decide) (by decide) 1⟩

theorem chain_head_le {idom : Nat → Option Nat} {k c b : Nat}
    (h : Chain idom k c b) : k ≤ c := by
  cases h with
  | single hk hi => exact hk
  | cons hk hi hch => exact hk

theorem chain_lt {idom : Nat → Option Nat}
    (Hdec : ∀ x y, idom x = some y → y < x) {k c b : Nat}
    (h : Chain idom k c b) : b < c := by
  induction h with
  | single hk hi => exact Hdec _ _ hi
  | cons hk hi hch ih => exact lt_trans ih (Hdec _ _ hi)

theorem chain_mono {idom : Nat → Option Nat} {k k2 c b : Nat} (hk2 : k2 ≤ k)
    (h : Chain idom k c b) : Chain idom k2 c b := by
  induction h with
  | single hk hi => exact Chain.single (le_trans hk2 hk) hi
  | cons hk hi hch ih => exact Chain.cons (le_trans hk2 hk) hi ih

theorem chain_append {idom : Nat → Option Nat} {k c b dd : Nat}
    (h : Chain idom k c b) : k ≤ b → idom b = some dd → Chain idom k c dd := by
  induction h with
  | single hk hic =>
    intro hb hi
    exact Chain.cons hk hic (Chain.single hb hi)
  | cons hk hic hch ih =>
    intro hb hi
    exact Chain.cons hk hic (ih hb hi)

theorem chain_decompose {idom : Nat → Option Nat}
    (Hdec : ∀ x y, idom x = some y → y < x) {k c b : Nat}
    (h : Chain idom k c b) :
    Chain idom (k + 1) c b ∨ (c = k ∧ idom k = some b) ∨
      (Chain idom (k + 1) c k ∧ idom k = some b) := by
  induction h with
  | @single c2 b2 hk hi =>
    by_cases hck : c2 = k
    · exact Or.inr (Or.inl ⟨hck, hck ▸ hi⟩)
    · exact Or.inl (Chain.single (Nat.lt_of_le_of_ne hk (Ne.symm hck)) hi)
  | @cons c2 dd2 b2 hk hi hch ih =>
    by_cases hck : c2 = k
    · exfalso
      have hdd := Hdec _ _ (hck ▸ hi)
      have := chain_head_le hch
      omega
    · have hc1 : k + 1 ≤ c2 := Nat.lt_of_le_of_ne hk (Ne.symm hck)
      rcases ih with h1 | ⟨hdk, hib⟩ | ⟨hchk, hib⟩
      · exact Or.inl (Chain.cons hc1 hi h1)
      · exact Or.inr (Or.inr ⟨Chain.single hc1 (hdk ▸ hi), hib⟩)
      · exact Or.inr (Or.inr ⟨Chain.cons hc1 hi hchk, hib⟩)

theorem reachAbove_refl (idom : Nat → Option Nat) (k b : Nat) :
    ∀ fuel, reachAbove idom k fuel b b = true := by
  intro fuel
  cases fuel with
  | zero => simp [reachAbove]
  | succ g => simp [reachAbove]

theorem reachAbove_sound (idom : Nat → Option Nat) (k b : Nat) :
    ∀ fuel c, reachAbove idom k fuel b c = true → b = c ∨ Chain idom k c b := by
  intro fuel
  induction fuel with
  | zero =>
    intro c h
    exact Or.inl (by simpa [reachAbove] using h)
  | succ g ih =>
    intro c h
    simp only [reachAbove, Bool.or_eq_true, Bool.and_eq_true, beq_iff_eq,
      decide_eq_true_eq] at h
    rcases h with he | ⟨hkc, hm⟩
    · exact Or.inl he
    · cases hid : idom c with
      | none =>
        rw [hid] at hm
        exact absurd hm (by simp)
      | some dd =>
        rw [hid] at hm
        rcases ih dd hm with he | hch
        · exact Or.inr (Chain.single hkc (he ▸ hid))
        · exact Or.inr (Chain.cons hkc hid hch)

theorem chain_complete {idom : Nat → Option Nat}
    (Hdec : ∀ x y, idom x = some y → y < x) {k c b : Nat}
    (h : Chain idom k c b) :
    ∀ fuel, c < fuel → reachAbove idom k fuel b c = true := by
  induction h with
  | single hk hi =>
    intro fuel hf
    cases fuel with
    | zero => exact absurd hf (Nat.not_lt_zero _)
    | succ g => simp [reachAbove, hi, hk, reachAbove_refl]
  | cons hk hi hch ih =>
    intro fuel hf
    cases fuel with
    | zero => exact absurd hf (Nat.not_lt_zero _)
    | succ g =>
      have hdd := Hdec _ _ hi
      have hlt := chain_lt Hdec hch
      simp [reachAbove, hi, hk, ih g (by omega)]

/-- Effect of one `InitializeBlockState` step on the reverse pass's
invariant: processing block `k` lowers the threshold from `k + 1` to
`k`. -/
theorem initializeBlockState_inv (idom : Nat → Option Nat) (n : Nat)
    (Hdec : ∀ x y, idom x = some y → y < x) (k : Nat) (hk : k < n)
    (st : Nat → Finset Nat)
    (hst : ∀ b c, c ∈ st b ↔
      (c < n ∧ ((c = b ∧ k + 1 ≤ b) ∨ Chain idom (k + 1) c b))) :
    ∀ b c, c ∈ InitializeBlockState idom st k b ↔
      (c < n ∧ ((c = b ∧ k ≤ b) ∨ Chain idom k c b)) := by
  intro b c
  unfold InitializeBlockState
  cases hid : idom k with
  | none =>
    dsimp only
    by_cases hbk : b = k
    · subst hbk
      rw [Function.update_same]
      constructor
      · intro hc
        rcases Finset.mem_insert.mp hc with he | hmem
        · subst he
          exact ⟨hk, Or.inl ⟨rfl, le_refl _⟩⟩
        · obtain ⟨hcn, hor⟩ := (hst b c).mp hmem
          refine ⟨hcn, ?_⟩
          rcases hor with ⟨he, hle⟩ | hch
          · exact absurd hle (by omega)
          · exact Or.inr (chain_mono (Nat.le_succ _) hch)
      · intro hh
        obtain ⟨hcn, hor⟩ := hh
        rcases hor with ⟨he, hle⟩ | hch
        · subst he
          exact Finset.mem_insert_self _ _
        · rcases chain_decompose Hdec hch with h1 | ⟨hck, hib⟩ | ⟨hchk, hib⟩
          · exact Finset.mem_insert_of_mem ((hst b c).mpr ⟨hcn, Or.inr h1⟩)
          · rw [hid] at hib
            cases hib
          · rw [hid] at hib
            cases hib
    · rw [Function.update_noteq hbk, hst b c]
      constructor
      · intro hh
        obtain ⟨hcn, hor⟩ := hh
        refine ⟨hcn, ?_⟩
        rcases hor with ⟨he, hle⟩ | hch
        · exact Or.inl ⟨he, Nat.le_of_succ_le hle⟩
        · exact Or.inr (chain_mono (Nat.le_succ _) hch)
      · intro hh
        obtain ⟨hcn, hor⟩ := hh
        refine ⟨hcn, ?_⟩
        rcases hor with ⟨he, hle⟩ | hch
        · exact Or.inl ⟨he, Nat.lt_of_le_of_ne hle (fun hh2 => hbk hh2.symm)⟩
        · rcases chain_decompose Hdec hch with h1 | ⟨hck, hib⟩ | ⟨hchk, hib⟩
          · exact Or.inr h1
          · rw [hid] at hib
            cases hib
          · rw [hid] at hib
            cases hib
  | some dd =>
    dsimp only
    have hddk : dd < k := Hdec k dd hid
    have hddn : dd < n := lt_trans hddk hk
    by_cases hbd : b = dd
    · subst hbd
      rw [Function.update_same,
        Function.update_noteq (Nat.ne_of_lt hddk), Function.update_same]
      constructor
      · intro hc
        rcases Finset.mem_union.mp hc with hc1 | hc2
        · obtain ⟨hcn, hor⟩ := (hst b c).mp hc1
          refine ⟨hcn, Or.inr ?_⟩
          rcases hor with ⟨he, hle⟩ | hch
          · exact absurd hle (by omega)
          · exact chain_mono (Nat.le_succ _) hch
        · rcases Finset.mem_insert.mp hc2 with he | hmem
          · subst he
            exact ⟨hk, Or.inr (Chain.single (le_refl _) hid)⟩
          · obtain ⟨hcn, hor⟩ := (hst k c).mp hmem
            refine ⟨hcn, Or.inr ?_⟩
            rcases hor with ⟨he, hle⟩ | hch
            · exact absurd hle (by omega)
            · exact chain_append (chain_mono (Nat.le_succ _) hch) (le_refl _) hid
      · intro hh
        obtain ⟨hcn, hor⟩ := hh
        rcases hor with ⟨he, hle⟩ | hch
        · exact absurd hle (by omega)
        · rcases chain_decompose Hdec hch with h1 | ⟨hck, hib⟩ | ⟨hchk, hib⟩
          · exact Finset.mem_union_left _ ((hst b c).mpr ⟨hcn, Or.inr h1⟩)
          · subst hck
            exact Finset.mem_union_right _ (Finset.mem_insert_self _ _)
          · exact Finset.mem_union_right _ (Finset.mem_insert_of_mem
              ((hst k c).mpr ⟨hcn, Or.inr hchk⟩))
    · rw [Function.update_noteq hbd]
      by_cases hbk : b = k
      · subst hbk
        rw [Function.update_same]
        constructor
        · intro hc
          rcases Finset.mem_insert.mp hc with he | hmem
          · subst he
            exact ⟨hk, Or.inl ⟨rfl, le_refl _⟩⟩
          · obtain ⟨hcn, hor⟩ := (hst b c).mp hmem
            refine ⟨hcn, ?_⟩
            rcases hor with ⟨he, hle⟩ | hch
            · exact absurd hle (by omega)
            · exact Or.inr (chain_mono (Nat.le_succ _) hch)
        · intro hh
          obtain ⟨hcn, hor⟩ := hh
          rcases hor with ⟨he, hle⟩ | hch
          · subst he
            exact Finset.mem_insert_self _ _
          · rcases chain_decompose Hdec hch with h1 | ⟨hck, hib⟩ | ⟨hchk, hib⟩
            · exact Finset.mem_insert_of_mem ((hst b c).mpr ⟨hcn, Or.inr h1⟩)
            · exfalso
              rw [hid] at hib
              have : dd = b := Option.some.inj hib
              omega
            · exfalso
              rw [hid] at hib
              have : dd = b := Option.some.inj hib
              omega
      · rw [Function.update_noteq hbk, hst b c]
        constructor
        · intro hh
          obtain ⟨hcn, hor⟩ := hh
          refine ⟨hcn, ?_⟩
          rcases hor with ⟨he, hle⟩ | hch
          · exact Or.inl ⟨he, Nat.le_of_succ_le hle⟩
          · exact Or.inr (chain_mono (Nat.le_succ _) hch)
        · intro hh
          obtain ⟨hcn, hor⟩ := hh
          refine ⟨hcn, ?_⟩
          rcases hor with ⟨he, hle⟩ | hch
          · exact Or.inl ⟨he, Nat.lt_of_le_of_ne hle (fun hh2 => hbk hh2.symm)⟩
          · rcases chain_decompose Hdec hch with h1 | ⟨hck, hib⟩ | ⟨hchk, hib⟩
            · exact Or.inr h1
            · exact absurd (Option.some.inj (hid ▸ hib)).symm hbd
            · exact absurd (Option.some.inj (hid ▸ hib)).symm hbd

/-- The reverse pass over blocks `k - 1, …, 0` lowers the invariant's
threshold from `k` to `0`. -/
theorem initializeBlockStates_fold (idom : Nat → Option Nat) (n : Nat)
    (Hdec : ∀ x y, idom x = some y → y < x) :
    ∀ k : Nat, k ≤ n →
      ∀ st : Nat → Finset Nat,
        (∀ b c, c ∈ st b ↔
          (c < n ∧ ((c = b ∧ k ≤ b) ∨ Chain idom k c b))) →
        ∀ b c,
          c ∈ (((List.range k).reverse).foldl (InitializeBlockState idom) st) b ↔
            (c < n ∧ (c = b ∨ Chain idom 0 c b)) := by
  intro k
  induction k with
  | zero =>
    intro hkn st hst b c
    simpa using hst b c
  | succ k ih =>
    intro hkn st hst b c
    rw [List.range_succ, List.reverse_append]
    simp only [List.reverse_singleton, List.singleton_append, List.foldl_cons]
    exact ih (Nat.le_of_succ_le hkn) (InitializeBlockState idom st k)
      (initializeBlockState_inv idom n Hdec k (Nat.lt_of_succ_le hkn) st hst) b c

/-- C6: after the reverse pass over all blocks — each block first marked
as dominating itself, then its dominated set unioned into its immediate
dominator's set, blocks processed in reverse post-order — every block
`b`'s `dominated_blocks` set is exactly the set of blocks transitively
dominated by `b`, inclusive of `b` itself.  The hypothesis `Hdec` is the
reverse-post-order property the pass relies on: every immediate dominator
precedes the blocks it dominates. -/
theorem c6_dominated_blocks (idom : Nat → Option Nat) (n : Nat)
    (Hdec : ∀ x y, idom x = some y → y < x) (b : Nat) :
    InitializeBlockStates idom n b
      = ((List.range n).filter (fun c => dominates idom b c)).toFinset := by
  have hinit : ∀ b2 c, c ∈ (fun _ => (∅ : Finset Nat)) b2 ↔
      (c < n ∧ ((c = b2 ∧ n ≤ b2) ∨ Chain idom n c b2)) := by
    intro b2 c
    constructor
    · intro h
      exact absurd h (Finset.not_mem_empty c)
    · intro hh
      obtain ⟨hcn, hor⟩ := hh
      rcases hor with ⟨he, hle⟩ | hch
      · subst he
        exact absurd hcn (by omega)
      · have := chain_head_le hch
        exact absurd hcn (by omega)
  have hfold := initializeBlockStates_fold idom n Hdec n (le_refl n) _ hinit
  ext c
  have h1 : c ∈ InitializeBlockStates idom n b ↔
      (c < n ∧ (c = b ∨ Chain idom 0 c b)) := hfold b c
  rw [h1, List.mem_toFinset, List.mem_filter, List.mem_range]
  constructor
  · intro hh
    obtain ⟨hcn, hor⟩ := hh
    refine ⟨hcn, ?_⟩
    show reachAbove idom 0 (c + 1) b c = true
    rcases hor with he | hch
    · subst he
      exact reachAbove_refl idom 0 c (c + 1)
    · exact chain_complete Hdec hch (c + 1) (Nat.lt_succ_self c)
  · intro hh
    obtain ⟨hcn, hdom⟩ := hh
    refine ⟨hcn, ?_⟩
    rcases reachAbove_sound idom 0 b (c + 1) c hdom with he | hch
    · exact Or.inl he.symm
    · exact Or.inr hch

/-- Witness for `c6_dominated_blocks` at a concrete input: block 0
dominates every block (1 and 2 both have immediate dominator 0). -/
theorem c6_witness :
    (∀ x y, (fun z => if z = 0 then none else some 0) x = some y → y < x) ∧
    InitializeBlockStates (fun z => if z = 0 then none else some 0) 3 0
      = ((List.range 3).filter
          (fun c => dominates (fun z => if z = 0 then none else some 0) 0 c)).toFinset :=
  ⟨fun x y h => by
     have h2 : (if x = 0 then (none : Option Nat) else some 0) = some y := h
     by_cases hx : x = 0
     · rw [if_pos hx] at h2
       cases h2
     · rw [if_neg hx] at h2
       have hy : y = 0 := (Option.some.inj h2).symm
       subst hy
       exact Nat.pos_of_ne_zero hx,
   c6_dominated_blocks (fun z => if z = 0 then none else some 0) 3
     (fun x y h => by
       have h2 : (if x = 0 then (none : Option Nat) else some 0) = some y := h
       by_cases hx : x = 0
       · rw [if_pos hx] at h2
         cases h2
       · rw [if_neg hx] at h2
         have hy : y = 0 := (Option.some.inj h2).symm
         subst hy
         exact Nat.pos_of_ne_zero hx) 0⟩

end MidTier
